import Mathlib

/-!
# Heartbeat watchdog (main.go)

A shallow embedding of the single source file of the repository: the
configuration loader (`parseDuration`, `loadConfig`), the notifier
(`sendEmail`), the request handler (`handleRequest`), one iteration of the
monitoring loop (`checkTimeout`) and the entry point (`main`).

Conventions of the embedding.

* Instants and durations are integers counting nanoseconds, as Go's
  `time.Duration` does. `time.Since (lastCall)` at the instant `now` is
  `now - lastCall`; the library clamps the difference to the range of a
  duration, about 292 years either way, which two readings of the clock of
  one process do not leave.
* The two process-wide variables `lastCall` and `timeoutFlag` are the two
  fields of `State`; every operation takes the state and returns the new one.
* What an operation does to the outside world is returned as a list of
  `Output` values, oldest first: a mail handed to the SMTP dialer, or a line
  written to standard output.
* Whether `DialAndSend` fails is an input of the operation (`sendErr`), since
  it is decided by the network and not by the program.
* The critical sections guarded by `mutex` are atomic steps.
-/

namespace GoDemo

/-- Nanoseconds, the unit of Go's `time.Duration`. -/
abbrev Duration := Int

/-- An instant on the process clock, in nanoseconds. -/
abbrev Time := Int

/-- The record `Config` of main.go, lines 22-31. -/
structure Config where
  ListenAddr : String
  Recipients : List String
  IntervalStr : String
  TimeoutStr : String
  EmailFrom : String
  EmailPass : String
  Interval : Duration
  Timeout : Duration
deriving DecidableEq, Repr

/-- The message built by `sendEmail` with `gomail.NewMessage` and its setters. -/
structure Message where
  fromAddr : String
  toAddrs : List String
  subject : String
  contentType : String
  body : String
deriving DecidableEq, Repr

/-- The arguments of `gomail.NewDialer`. -/
structure Dialer where
  host : String
  port : Nat
  username : String
  password : String
deriving DecidableEq, Repr

/-- An effect on the outside world. -/
inductive Output where
  | mail (d : Dialer) (m : Message)
  | stdout (line : String)
deriving DecidableEq, Repr

/-- The mails among a list of outputs, in order: the send attempts. -/
def mails : List Output → List Message
  | [] => []
  | Output.mail _ m :: rest => m :: mails rest
  | Output.stdout _ :: rest => mails rest

/-- The process-wide variables of main.go, lines 67-71 (the mutex is
represented by the atomicity of the steps). -/
structure State where
  lastCall : Time
  timeoutFlag : Bool
deriving DecidableEq, Repr

/-- The state at process start: `lastCall = time.Now ()`, `timeoutFlag = false`. -/
def initialState (start : Time) : State :=
  { lastCall := start, timeoutFlag := false }

/-- Function `sendEmail` (lines 78-90). `sendErr` is the error returned by
`d.DialAndSend (m)`, if any; a failure is printed and nothing else happens. -/
def sendEmail (config : Config) (subject body : String) (sendErr : Option String) :
    List Output :=
  let m : Message :=
    { fromAddr := config.EmailFrom
      toAddrs := config.Recipients
      subject := subject
      contentType := "text/plain"
      body := body }
  let d : Dialer :=
    { host := "smtp.qq.com"
      port := 465
      username := config.EmailFrom
      password := config.EmailPass }
  match sendErr with
  | some err => [Output.mail d m, Output.stdout ("Error sending email: " ++ err ++ "\n")]
  | none => [Output.mail d m]

/-- The mail sent by `checkTimeout`. -/
def timeoutMail (config : Config) : Message :=
  { fromAddr := config.EmailFrom
    toAddrs := config.Recipients
    subject := "API Timeout"
    contentType := "text/plain"
    body := "API has not been called by zabbix in the last 10 minutes." }

/-- The mail sent by `handleRequest`. -/
def recoveredMail (config : Config) : Message :=
  { fromAddr := config.EmailFrom
    toAddrs := config.Recipients
    subject := "API Recovered"
    contentType := "text/plain"
    body := "API has been called by zabbix and recovered." }

/-- One iteration of the loop of `checkTimeout` after its `time.Sleep`
(lines 128-136), run at the instant `now`. -/
def tick (config : Config) (now : Time) (sendErr : Option String) (st : State) :
    State × List Output :=
  if now - st.lastCall > config.Timeout then
    if !st.timeoutFlag then
      ({ st with timeoutFlag := true },
        sendEmail config "API Timeout"
          "API has not been called by zabbix in the last 10 minutes." sendErr)
    else (st, [])
  else (st, [])

/-- An HTTP request, reduced to its form values in order of appearance. -/
structure Request where
  form : List (String × String)
deriving DecidableEq, Repr

/-- Method `FormValue` of a request: the first value of the key, or the empty
string when the key is absent. -/
def Request.FormValue (r : Request) (key : String) : String :=
  match r.form.find? (fun kv => kv.1 == key) with
  | some kv => kv.2
  | none => ""

/-- What `handleRequest` wrote to its `http.ResponseWriter`. -/
structure Response where
  status : Nat
  header : List (String × String)
  body : String
deriving DecidableEq, Repr

/-- The text `json.Encoder.Encode` writes for an integer: its decimal JSON
literal followed by a newline. -/
def jsonEncodeInt (v : Int) : String :=
  toString v ++ "\n"

/-- Function `handleRequest` (lines 92-122). `now` is the first reading of
the clock (stored in `lastCall`), `stamp` the formatted second reading used in
the log line, `sendErr` the outcome of the mail when one is sent. -/
def handleRequest (config : Config) (r : Request) (now : Time) (stamp : String)
    (sendErr : Option String) (st : State) : State × List Output × Response :=
  let param1 := r.FormValue "param1"
  let param2 := r.FormValue "param2"
  let st1 : State := { st with lastCall := now }
  let log := Output.stdout
    (stamp ++ " Received parameters: param1=" ++ param1 ++ ", param2=" ++ param2 ++ "\n")
  let apiResponse : Int := 233
  let resp : Response :=
    { status := 200
      header := [("Content-Type", "application/json")]
      body := jsonEncodeInt apiResponse }
  if st1.timeoutFlag then
    ({ st1 with timeoutFlag := false },
      log :: sendEmail config "API Recovered"
        "API has been called by zabbix and recovered." sendErr,
      resp)
  else (st1, [log], resp)

/-- A step of the running process: an iteration of the monitor or a call of
the endpoint. -/
inductive Step where
  | tick (now : Time) (sendErr : Option String)
  | heartbeat (r : Request) (now : Time) (stamp : String) (sendErr : Option String)
deriving DecidableEq, Repr

/-- The effect of one step on the state, with its outputs. -/
def step (config : Config) (s : Step) (st : State) : State × List Output :=
  match s with
  | Step.tick now sendErr => tick config now sendErr st
  | Step.heartbeat r now stamp sendErr =>
    ((handleRequest config r now stamp sendErr st).1,
      (handleRequest config r now stamp sendErr st).2.1)

/-- The effect of a sequence of steps, outputs concatenated in order. -/
def run (config : Config) : List Step → State → State × List Output
  | [], st => (st, [])
  | s :: rest, st =>
    ((run config rest (step config s st).1).1,
      (step config s st).2 ++ (run config rest (step config s st).1).2)

/-- The nominal instant of the k-th iteration of the monitor: k intervals
after the start. `time.Sleep (config.Interval)` lasts at least the interval,
so the iteration runs at that instant or later. -/
def pollTime (config : Config) (start : Time) (k : Nat) : Time :=
  start + (k : Int) * config.Interval

/-- The first `n` iterations of the monitor; the iteration of index `i`,
counted from zero, runs at the instant `times i`. -/
def pollSteps (times : Nat → Time) (sendErrs : Nat → Option String) (n : Nat) :
    List Step :=
  (List.range n).map (fun i => Step.tick (times i) (sendErrs i))

/-- The process started at `start` after `n` iterations of the monitor and
no call of the endpoint. -/
def monitor (config : Config) (start : Time) (times : Nat → Time)
    (sendErrs : Nat → Option String) (n : Nat) : State × List Output :=
  run config (pollSteps times sendErrs n) (initialState start)

/-- The mails a process can send one after the other, `n` of them, when it
starts with the flag `timedOut`: Recovered first when the flag is set, Timeout
first when it is not, and the other one after each. -/
def alternation (config : Config) : Bool → Nat → List Message
  | _, 0 => []
  | timedOut, n + 1 =>
    (if timedOut then recoveredMail config else timeoutMail config) ::
      alternation config (!timedOut) n

/-! ## The configuration loader

`parseDuration` calls `time.ParseDuration` of the Go standard library twice.
The library function is transcribed below from `time/format.go`, statement by
statement. A Go string is a sequence of bytes and the library inspects bytes;
here a string is its list of characters. The two views agree on the text a
JSON decoder produces (valid UTF-8): the bytes the library tests for are the
ASCII dot and digits, and every byte of a multi-byte character is above the
ASCII range. The arithmetic on `uint64` is written with an explicit
remainder modulo `2 ^ 64`; the arithmetic on `float64` is the IEEE 754
arithmetic of binary64, computed on integers.
-/

/-- The errors of `time.ParseDuration`, by message: "invalid duration",
"missing unit in duration" and "unknown unit ... in duration". -/
inductive ParseError where
  | invalidDuration (orig : List Char)
  | missingUnit (orig : List Char)
  | unknownUnit (u : List Char) (orig : List Char)
deriving DecidableEq, Repr

/-- The test `'0' <= c && c <= '9'` on a byte. -/
def isDigit (c : Char) : Bool :=
  decide ('0'.toNat ≤ c.toNat) && decide (c.toNat ≤ '9'.toNat)

/-- The loop of `leadingInt`: consumes the leading `[0-9]*`, failing (`none`)
on overflow. `x` is the value accumulated so far. -/
def leadingIntLoop (x : Nat) : List Char → Option (Nat × List Char)
  | [] => some (x, [])
  | c :: rest =>
    if c.toNat < '0'.toNat || c.toNat > '9'.toNat then some (x, c :: rest)
    else if x > 2 ^ 63 / 10 then none
    else if (x * 10 + c.toNat - '0'.toNat) % 2 ^ 64 > 2 ^ 63 then none
    else leadingIntLoop ((x * 10 + c.toNat - '0'.toNat) % 2 ^ 64) rest

/-- Function `leadingInt` of the time package. -/
def leadingInt (s : List Char) : Option (Nat × List Char) :=
  leadingIntLoop 0 s

/-- The loop of `leadingFraction`: consumes the leading `[0-9]*` and stops
accumulating precision on overflow. The result is the value `x`, the number
of digits accumulated (`scale` is ten to that power) and the rest. -/
def leadingFractionLoop (x digits : Nat) (overflow : Bool) :
    List Char → Nat × Nat × List Char
  | [] => (x, digits, [])
  | c :: rest =>
    if c.toNat < '0'.toNat || c.toNat > '9'.toNat then (x, digits, c :: rest)
    else if overflow then leadingFractionLoop x digits true rest
    else if x > (2 ^ 63 - 1) / 10 then leadingFractionLoop x digits true rest
    else if (x * 10 + c.toNat - '0'.toNat) % 2 ^ 64 > 2 ^ 63 then
      leadingFractionLoop x digits true rest
    else leadingFractionLoop ((x * 10 + c.toNat - '0'.toNat) % 2 ^ 64) (digits + 1) false rest

/-- Function `leadingFraction` of the time package. -/
def leadingFraction (s : List Char) : Nat × Nat × List Char :=
  leadingFractionLoop 0 0 false s

/-- The length of the unit: the index of the first dot or digit. -/
def unitLength : List Char → Nat
  | [] => 0
  | c :: rest => if c = '.' || isDigit c then 0 else unitLength rest + 1

/-- The table `unitMap` of the time package, in nanoseconds. -/
def unitMap (u : List Char) : Option Nat :=
  if u = ['n', 's'] then some 1
  else if u = ['u', 's'] then some 1000
  else if u = [Char.ofNat 0xB5, 's'] then some 1000
  else if u = [Char.ofNat 0x3BC, 's'] then some 1000
  else if u = ['m', 's'] then some 1000000
  else if u = ['s'] then some 1000000000
  else if u = ['m'] then some 60000000000
  else if u = ['h'] then some 3600000000000
  else none

/-- The step "consume (\.[0-9]*)?" of the loop of `time.ParseDuration`: the
fraction `f`, the number of its digits accumulated, the rest of the string,
and `post`, whether a digit was consumed after the dot. Without a dot the
fraction is zero and nothing is consumed. -/
def consumeFraction (s1 : List Char) : Nat × Nat × List Char × Bool :=
  match s1 with
  | [] => (0, 0, s1, false)
  | c1 :: t =>
    if c1 = '.' then
      ((leadingFraction t).1, (leadingFraction t).2.1, (leadingFraction t).2.2,
        t.length != (leadingFraction t).2.2.length)
    else (0, 0, s1, false)

/-- A binary floating-point number `mant * 2 ^ exp`, positive or zero. The
numbers of the Go type `float64` met in the parser are of this form with a
mantissa of at most `2 ^ 53`; they lie between `10 ^ -19` and `2 ^ 63`, far
inside the range of the exponent of the type. -/
structure F64 where
  mant : Nat
  exp : Int
deriving DecidableEq, Repr

/-- The position of the leading bit of a natural number below `2 ^ 256`
(the numbers rounded below stay under `2 ^ 162`). -/
def log2 (n : Nat) : Nat :=
  ([128, 64, 32, 16, 8, 4, 2, 1].foldl
    (fun (p : Nat × Nat) k => if p.2 ≥ 2 ^ k then (p.1 + k, p.2 / 2 ^ k) else p) (0, n)).1

/-- Rounding to 53 bits, to nearest, ties to even: the mantissa and the
number of bits dropped. `sticky` says that the exact value lies strictly
above `n`, by less than one. -/
def round53 (n : Nat) (sticky : Bool) : Nat × Nat :=
  if n < 2 ^ 53 then (n, 0)
  else if n % 2 ^ (log2 n - 52) > 2 ^ (log2 n - 52 - 1) ||
      (n % 2 ^ (log2 n - 52) == 2 ^ (log2 n - 52 - 1) &&
        (sticky || n / 2 ^ (log2 n - 52) % 2 == 1)) then
    (n / 2 ^ (log2 n - 52) + 1, log2 n - 52)
  else (n / 2 ^ (log2 n - 52), log2 n - 52)

/-- The conversion `float64 (n)` of an unsigned integer. -/
def F64.ofNat (n : Nat) : F64 :=
  { mant := (round53 n false).1, exp := (round53 n false).2 }

/-- The product of two `float64`, correctly rounded. -/
def F64.mul (a b : F64) : F64 :=
  { mant := (round53 (a.mant * b.mant) false).1
    exp := a.exp + b.exp + (round53 (a.mant * b.mant) false).2 }

/-- The quotient of two `float64`, correctly rounded: exact when the
mantissas divide, and otherwise rounded from 108 more bits of the quotient
and the fact that a remainder is left. The divisor met in the parser,
`scale`, is never zero. -/
def F64.div (a b : F64) : F64 :=
  if a.mant % b.mant = 0 then
    { mant := (round53 (a.mant / b.mant) false).1
      exp := a.exp - b.exp + (round53 (a.mant / b.mant) false).2 }
  else
    { mant := (round53 (a.mant * 2 ^ 108 / b.mant) (a.mant * 2 ^ 108 % b.mant != 0)).1
      exp := a.exp - b.exp - 108
        + (round53 (a.mant * 2 ^ 108 / b.mant) (a.mant * 2 ^ 108 % b.mant != 0)).2 }

/-- The conversion `uint64 (x)` of a `float64`: the integer part. -/
def F64.toUint64 (a : F64) : Nat :=
  if 0 ≤ a.exp then (a.mant * 2 ^ a.exp.toNat) % 2 ^ 64
  else a.mant / 2 ^ (-a.exp).toNat

/-- The variable `scale` of `leadingFraction` after `digits` digits: it starts
at 1 and is multiplied by 10 for every digit accumulated. -/
def scale : Nat → F64
  | 0 => F64.ofNat 1
  | digits + 1 => F64.mul (scale digits) (F64.ofNat 10)

/-- The expression `uint64 (float64 (f) * (float64 (unit) / scale))` of
`time.ParseDuration`: the nanoseconds of the fraction `f / scale` of a
unit. -/
def fracNanos (f unit digits : Nat) : Nat :=
  F64.toUint64 (F64.mul (F64.ofNat f) (F64.div (F64.ofNat unit) (scale digits)))

/-- The step "consume unit" of the loop of `time.ParseDuration` and the
scaling that follows it: from the integer part `v`, the fraction `f` with its
number of digits, and the string `s2` that starts with the unit, the value in
nanoseconds and the rest of the string. -/
def consumeUnit (orig : List Char)
    (v f digits : Nat) (s2 : List Char) : Except ParseError (Nat × List Char) :=
  if unitLength s2 = 0 then Except.error (ParseError.missingUnit orig)
  else
    match unitMap (s2.take (unitLength s2)) with
    | none => Except.error (ParseError.unknownUnit (s2.take (unitLength s2)) orig)
    | some unit =>
      if v > 2 ^ 63 / unit then Except.error (ParseError.invalidDuration orig)
      else if f > 0 then
        if ((v * unit) % 2 ^ 64 + fracNanos f unit digits) % 2 ^ 64 > 2 ^ 63 then
          Except.error (ParseError.invalidDuration orig)
        else
          Except.ok (((v * unit) % 2 ^ 64 + fracNanos f unit digits) % 2 ^ 64,
            s2.drop (unitLength s2))
      else Except.ok ((v * unit) % 2 ^ 64, s2.drop (unitLength s2))

/-- One pass through the body of the loop of `time.ParseDuration`, up to the
addition to the running total: a number, an optional fraction and a unit are
consumed from `s`, and the value in nanoseconds is returned with the rest. -/
def parseTerm (orig s : List Char) :
    Except ParseError (Nat × List Char) :=
  match s with
  | [] => Except.error (ParseError.invalidDuration orig)
  | c :: _ =>
    if !(c = '.' || isDigit c) then Except.error (ParseError.invalidDuration orig)
    else
      match leadingInt s with
      | none => Except.error (ParseError.invalidDuration orig)
      | some (v, s1) =>
        if !(s.length != s1.length) && !(consumeFraction s1).2.2.2 then
          Except.error (ParseError.invalidDuration orig)
        else
          consumeUnit orig v (consumeFraction s1).1 (consumeFraction s1).2.1
            (consumeFraction s1).2.2.1

/-- The loop `for s != ""` of `time.ParseDuration`, with the running total
`d`. Every pass consumes at least one character, so a fuel equal to the
length of `s` is never exhausted (see `parseLoop_fuel`). -/
def parseLoop (orig : List Char) :
    Nat → List Char → Nat → Except ParseError Nat
  | _, [], d => Except.ok d
  | 0, _ :: _, _ => Except.error (ParseError.invalidDuration orig)
  | fuel + 1, c :: rest, d =>
    match parseTerm orig (c :: rest) with
    | Except.error e => Except.error e
    | Except.ok (v, s3) =>
      if (d + v) % 2 ^ 64 > 2 ^ 63 then Except.error (ParseError.invalidDuration orig)
      else parseLoop orig fuel s3 ((d + v) % 2 ^ 64)

/-- The conversion `Duration (d)` of a `uint64` and the arithmetic of
`int64`: the representative of `x` in the range of `int64`. -/
def toInt64 (x : Int) : Int :=
  (x + 2 ^ 63) % 2 ^ 64 - 2 ^ 63

/-- Function `time.ParseDuration` on the characters of its argument. -/
def ParseDurationChars (orig : List Char) :
    Except ParseError Duration :=
  let neg : Bool :=
    match orig with
    | c :: _ => c = '-'
    | [] => false
  let s : List Char :=
    match orig with
    | c :: rest => if c = '-' || c = '+' then rest else orig
    | [] => orig
  if s = ['0'] then Except.ok 0
  else if s = [] then Except.error (ParseError.invalidDuration orig)
  else
    match parseLoop orig s.length s 0 with
    | Except.error e => Except.error e
    | Except.ok d =>
      if neg then Except.ok (toInt64 (- toInt64 d))
      else if d > 2 ^ 63 - 1 then Except.error (ParseError.invalidDuration orig)
      else Except.ok (toInt64 d)

/-- Function `time.ParseDuration`. -/
def ParseDuration (s : String) :
    Except ParseError Duration :=
  ParseDurationChars s.toList

/-- Method `parseDuration` of `Config` (lines 33-42): the record after the
call and the error returned, if any. On an error `time.ParseDuration`
returns the zero duration, which is stored. -/
def Config.parseDuration (c : Config) :
    Config × Option ParseError :=
  match ParseDuration c.IntervalStr with
  | Except.error err => ({ c with Interval := 0 }, some err)
  | Except.ok interval =>
    match ParseDuration c.TimeoutStr with
    | Except.error err => ({ c with Interval := interval, Timeout := 0 }, some err)
    | Except.ok timeout => ({ c with Interval := interval, Timeout := timeout }, none)

/-- The fields of the configuration file that `json.Unmarshal` stores: the
six fields with a JSON name. `Interval` and `Timeout` carry the tag "-" and
are not touched by the decoder. -/
structure Decoded where
  listenAddr : String
  recipients : List String
  interval : String
  timeout : String
  emailFrom : String
  emailPass : String
deriving DecidableEq, Repr

/-- What the loader depends on outside the program: the outcome of
`ioutil.ReadFile (configFile)` and the JSON decoder. -/
structure Env where
  readFile : Except String String
  unmarshal : String → Except String Decoded

/-- The errors `loadConfig` can return, by origin. -/
inductive LoadError where
  | read (err : String)
  | decode (err : String)
  | duration (err : ParseError)
deriving DecidableEq, Repr

/-- The variable `config` after a successful `json.Unmarshal` into its zero
value. -/
def Decoded.toConfig (d : Decoded) : Config :=
  { ListenAddr := d.listenAddr
    Recipients := d.recipients
    IntervalStr := d.interval
    TimeoutStr := d.timeout
    EmailFrom := d.emailFrom
    EmailPass := d.emailPass
    Interval := 0
    Timeout := 0 }

/-- Function `loadConfig` (lines 44-65): the error returned, or the value of
`config` after a successful load. -/
def loadConfig (env : Env) : Except LoadError Config :=
  match env.readFile with
  | Except.error err => Except.error (LoadError.read err)
  | Except.ok data =>
    match env.unmarshal data with
    | Except.error err => Except.error (LoadError.decode err)
    | Except.ok d =>
      match (d.toConfig.parseDuration).2 with
      | some err => Except.error (LoadError.duration err)
      | none => Except.ok (d.toConfig.parseDuration).1

/-- What `main` does, in order. -/
inductive MainEvent where
  | printLoadError (err : LoadError)
  | goCheckTimeout
  | handleFunc (pattern : String)
  | listenAndServe (addr : String)
  | printServeError (err : String)
deriving DecidableEq, Repr

/-- Function `main` (lines 140-157). `serveErr` is the error with which
`http.ListenAndServe` returns, if it ever does. -/
def main (env : Env) (serveErr : Option String) : List MainEvent :=
  match loadConfig env with
  | Except.error err => [MainEvent.printLoadError err]
  | Except.ok config =>
    [MainEvent.goCheckTimeout, MainEvent.handleFunc "/call-api",
      MainEvent.listenAndServe config.ListenAddr] ++
    (match serveErr with
      | some err => [MainEvent.printServeError err]
      | none => [])

/-! ## The grammar of duration strings

The duration strings of the specification are "a sequence of (decimal number
+ unit) pairs". A pair is a `Term`: a decimal number, that is digits,
optionally a dot and more digits, at least one digit in all, followed by one
of the units of `unitMap`. A string of the specification carries no sign.
The syntax `time.ParseDuration` documents is wider: an optional sign, then
the single digit 0 or a string of the specification.
-/

/-- A number-unit pair of a duration string. -/
structure Term where
  whole : List Char
  frac : Option (List Char)
  unit : List Char
deriving DecidableEq, Repr

/-- The characters of the optional fraction of a term: a dot and digits. -/
def fracText (fr : Option (List Char)) : List Char :=
  match fr with
  | some fd => '.' :: fd
  | none => []

/-- The characters of a term. -/
def Term.text (t : Term) : List Char :=
  t.whole ++ fracText t.frac ++ t.unit

/-- A term is well formed when its number consists of digits, at least one,
and its unit is known. -/
def Term.wellFormed (t : Term) : Bool :=
  t.whole.all isDigit && (t.frac.getD []).all isDigit &&
    (!t.whole.isEmpty || !(t.frac.getD []).isEmpty) && (unitMap t.unit).isSome

/-- The value of a string of digits. -/
def decimalValue (ds : List Char) : Nat :=
  ds.foldl (fun x c => x * 10 + (c.toNat - '0'.toNat)) 0

/-- The nanoseconds of the unit of a term. -/
def Term.unitNanos (t : Term) : Nat :=
  (unitMap t.unit).getD 0

/-- The nanoseconds a term counts for: the integer part of its number times
the unit, plus the share of the fraction. The fraction is taken as the
library reads it, that is the digits that fit in 64 bits, scaled in float64
and cut to whole nanoseconds; `Term.exact_nanos` says when this is the
exact product. -/
def Term.nanos (t : Term) : Nat :=
  decimalValue t.whole * t.unitNanos +
    (match t.frac with
      | some fd => fracNanos (leadingFraction fd).1 t.unitNanos (leadingFraction fd).2.1
      | none => 0)

/-- A term whose fraction, of `k` digits, is a whole number of nanoseconds
digit by digit: ten to the power `k` divides the unit. -/
def Term.exact (t : Term) : Bool :=
  t.unitNanos % 10 ^ (t.frac.getD []).length == 0

/-- The characters of a sequence of terms. -/
def durationText : List Term → List Char
  | [] => []
  | t :: rest => t.text ++ durationText rest

/-- The nanoseconds a sequence of terms denotes: the sum of its number-unit
pairs. -/
def durationNanos : List Term → Nat
  | [] => 0
  | t :: rest => t.nanos + durationNanos rest

/-- The terms of a duration string of the specification: a non-empty sequence
of well-formed terms. -/
def specDuration (ts : List Term) : Bool :=
  !ts.isEmpty && ts.all Term.wellFormed

/-- A duration string of the specification. -/
def SpecDuration (s : List Char) : Prop :=
  ∃ ts : List Term, specDuration ts = true ∧ s = durationText ts

/-- The syntax of `time.ParseDuration`: an optional sign followed by the
digit 0 or by a duration string of the specification. -/
def SignedDuration (s : List Char) : Prop :=
  ∃ sign body : List Char,
    (sign = [] ∨ sign = ['-'] ∨ sign = ['+']) ∧ s = sign ++ body ∧
    (body = ['0'] ∨ SpecDuration body)

/-! ## Lemmas on the notifier and on single steps -/

theorem mails_append (a b : List Output) : mails (a ++ b) = mails a ++ mails b := by
  induction a with
  | nil => rfl
  | cons x rest ih =>
    cases x with
    | mail d m => simp [mails, ih]
    | stdout line => simp [mails, ih]

theorem mails_sendEmail (config : Config) (subject body : String) (sendErr : Option String) :
    mails (sendEmail config subject body sendErr) =
      [{ fromAddr := config.EmailFrom, toAddrs := config.Recipients, subject := subject,
         contentType := "text/plain", body := body }] := by
  cases sendErr <;> simp [sendEmail, mails]

theorem timeoutMail_ne_recoveredMail (config : Config) :
    timeoutMail config ≠ recoveredMail config := by
  intro h
  have hs : (timeoutMail config).subject = (recoveredMail config).subject := by rw [h]
  simp [timeoutMail, recoveredMail] at hs

theorem tick_fires (config : Config) (now : Time) (sendErr : Option String) (st : State)
    (hlate : now - st.lastCall > config.Timeout) (hflag : st.timeoutFlag = false) :
    (tick config now sendErr st).1 = { st with timeoutFlag := true } ∧
      mails (tick config now sendErr st).2 = [timeoutMail config] := by
  simp [tick, hlate, hflag, mails_sendEmail, timeoutMail]

theorem tick_idle (config : Config) (now : Time) (sendErr : Option String) (st : State)
    (h : ¬ (now - st.lastCall > config.Timeout ∧ st.timeoutFlag = false)) :
    tick config now sendErr st = (st, []) := by
  unfold tick
  by_cases hlate : now - st.lastCall > config.Timeout
  · have hflag : st.timeoutFlag = true := by
      cases hf : st.timeoutFlag
      · exact absurd ⟨hlate, hf⟩ h
      · rfl
    simp [hlate, hflag]
  · simp [hlate]

theorem tick_lastCall (config : Config) (now : Time) (sendErr : Option String) (st : State) :
    (tick config now sendErr st).1.lastCall = st.lastCall := by
  unfold tick
  split
  · split <;> rfl
  · rfl

theorem run_ticks_timedOut (config : Config) (ticks : List (Time × Option String))
    (st : State) (hflag : st.timeoutFlag = true) :
    run config (ticks.map (fun p => Step.tick p.1 p.2)) st = (st, []) := by
  induction ticks with
  | nil => rfl
  | cons p rest ih =>
    have h1 : tick config p.1 p.2 st = (st, []) :=
      tick_idle config p.1 p.2 st (by simp [hflag])
    simp [run, step, h1, ih]

theorem handleRequest_state (config : Config) (r : Request) (now : Time) (stamp : String)
    (sendErr : Option String) (st : State) :
    (handleRequest config r now stamp sendErr st).1 =
      { lastCall := now, timeoutFlag := false } := by
  unfold handleRequest
  cases hf : st.timeoutFlag <;> simp [hf]

theorem handleRequest_mails (config : Config) (r : Request) (now : Time) (stamp : String)
    (sendErr : Option String) (st : State) :
    mails (handleRequest config r now stamp sendErr st).2.1 =
      if st.timeoutFlag then [recoveredMail config] else [] := by
  unfold handleRequest
  cases hf : st.timeoutFlag <;> simp [hf, mails, mails_sendEmail, recoveredMail]

/-- Every step sends no mail and keeps the flag, or sends the one mail the
flag allows and flips the flag. -/
theorem step_mails (config : Config) (s : Step) (st : State) :
    (mails (step config s st).2 = [] ∧ (step config s st).1.timeoutFlag = st.timeoutFlag) ∨
    (mails (step config s st).2 = alternation config st.timeoutFlag 1 ∧
      (step config s st).1.timeoutFlag = !st.timeoutFlag) := by
  cases s with
  | tick now sendErr =>
    by_cases h : now - st.lastCall > config.Timeout ∧ st.timeoutFlag = false
    · right
      have hfire := tick_fires config now sendErr st h.1 h.2
      simp only [step, hfire.2, hfire.1, h.2, alternation]
      simp
    · left
      simp [step, tick_idle config now sendErr st h, mails]
  | heartbeat r now stamp sendErr =>
    simp only [step, handleRequest_mails, handleRequest_state]
    cases hf : st.timeoutFlag
    · left; simp
    · right; simp [alternation]

theorem alternation_length (config : Config) (b : Bool) (n : Nat) :
    (alternation config b n).length = n := by
  induction n generalizing b with
  | zero => rfl
  | succ n ih => simp [alternation, ih]

/-- The mails of a run alternate from the one the initial flag allows, and the
final flag is the initial one flipped once per mail. -/
theorem run_mails (config : Config) (steps : List Step) (st : State) :
    mails (run config steps st).2
      = alternation config st.timeoutFlag (mails (run config steps st).2).length ∧
    (run config steps st).1.timeoutFlag
      = (st.timeoutFlag != decide ((mails (run config steps st).2).length % 2 = 1)) := by
  induction steps generalizing st with
  | nil => simp [run, mails, alternation]
  | cons s rest ih =>
    obtain ⟨ih1, ih2⟩ := ih (step config s st).1
    simp only [run, mails_append]
    rcases step_mails config s st with ⟨hm, hf⟩ | ⟨hm, hf⟩
    · rw [hf] at ih1 ih2
      rw [hm]
      simp only [List.nil_append]
      exact ⟨ih1, ih2⟩
    · rw [hf] at ih1 ih2
      have hm1 : mails (step config s st).2
          = [if st.timeoutFlag then recoveredMail config else timeoutMail config] := by
        rw [hm]; rfl
      rw [hm1]
      simp only [List.singleton_append, List.length_cons, alternation]
      refine ⟨?_, ?_⟩
      · exact congrArg (List.cons _) ih1
      · rw [ih2]
        rcases Nat.mod_two_eq_zero_or_one
          (mails (run config rest (step config s st).1).2).length with hpar | hpar
        · have h1 : ((mails (run config rest (step config s st).1).2).length + 1) % 2 = 1 := by
            omega
          cases st.timeoutFlag <;> simp [hpar, h1]
        · have h1 : ¬ ((mails (run config rest (step config s st).1).2).length + 1) % 2 = 1 := by
            omega
          cases st.timeoutFlag <;> simp [hpar, h1]

theorem alternation_getElem? (config : Config) (n : Nat) (b : Bool) (i : Nat) (hi : i < n) :
    (alternation config b n)[i]? =
      some (if (b != decide (i % 2 = 1)) then recoveredMail config
        else timeoutMail config) := by
  induction n generalizing b i with
  | zero => omega
  | succ n ih =>
    cases i with
    | zero => cases b <;> simp [alternation]
    | succ j =>
      simp only [alternation, List.getElem?_cons_succ]
      rw [ih (!b) j (by omega)]
      rcases Nat.mod_two_eq_zero_or_one j with hpar | hpar
      · have h1 : (j + 1) % 2 = 1 := by omega
        cases b <;> simp [hpar, h1]
      · have h1 : ¬ (j + 1) % 2 = 1 := by omega
        cases b <;> simp [hpar, h1]

/-- A run of ticks sends at most one mail. -/
theorem run_ticks_length (config : Config) (ticks : List (Time × Option String))
    (st : State) :
    (mails (run config (ticks.map (fun p => Step.tick p.1 p.2)) st).2).length ≤ 1 := by
  induction ticks generalizing st with
  | nil => simp [run, mails]
  | cons p rest ih =>
    by_cases h : p.1 - st.lastCall > config.Timeout ∧ st.timeoutFlag = false
    · have hfire := tick_fires config p.1 p.2 st h.1 h.2
      have hrest := run_ticks_timedOut config rest (tick config p.1 p.2 st).1
        (by rw [hfire.1])
      simp only [List.map_cons, run, step, hrest, mails_append, hfire.2]
      simp [mails]
    · have hidle := tick_idle config p.1 p.2 st h
      simp only [List.map_cons, run, step, hidle, mails_append]
      simpa [mails] using ih st

theorem run_append (config : Config) (a b : List Step) (st : State) :
    run config (a ++ b) st =
      ((run config b (run config a st).1).1,
        (run config a st).2 ++ (run config b (run config a st).1).2) := by
  induction a generalizing st with
  | nil => simp [run]
  | cons x rest ih => simp [run, ih, List.append_assoc]

theorem pollSteps_succ (times : Nat → Time) (sendErrs : Nat → Option String) (n : Nat) :
    pollSteps times sendErrs (n + 1) =
      pollSteps times sendErrs n ++ [Step.tick (times n) (sendErrs n)] := by
  simp [pollSteps, List.range_succ]

theorem monitor_succ (config : Config) (start : Time) (times : Nat → Time)
    (sendErrs : Nat → Option String) (n : Nat) :
    (monitor config start times sendErrs (n + 1)).1 =
      (tick config (times n) (sendErrs n) (monitor config start times sendErrs n).1).1 := by
  simp [monitor, pollSteps_succ, run_append, run, step]

theorem monitor_lastCall (config : Config) (start : Time) (times : Nat → Time)
    (sendErrs : Nat → Option String) (n : Nat) :
    (monitor config start times sendErrs n).1.lastCall = start := by
  induction n with
  | zero => rfl
  | succ n ih => rw [monitor_succ, tick_lastCall, ih]

/-- A tick that finds the flag clear and leaves it set found the elapsed time
above the timeout; one that leaves it clear found it not above. -/
theorem tick_flag (config : Config) (now : Time) (sendErr : Option String) (st : State)
    (hflag : st.timeoutFlag = false) :
    (tick config now sendErr st).1.timeoutFlag = true ↔ now - st.lastCall > config.Timeout := by
  by_cases hlate : now - st.lastCall > config.Timeout
  · rw [(tick_fires config now sendErr st hlate hflag).1]
    simp [hlate]
  · rw [tick_idle config now sendErr st (fun h => hlate h.1)]
    simp [hflag, hlate]

/-- Without a call of the endpoint the flag is set after `n` ticks exactly
when one of them came later than the timeout after the start. -/
theorem monitor_flag_iff (config : Config) (start : Time) (times : Nat → Time)
    (sendErrs : Nat → Option String) (n : Nat) :
    (monitor config start times sendErrs n).1.timeoutFlag = true ↔
      ∃ j, j < n ∧ times j - start > config.Timeout := by
  induction n with
  | zero => simp [monitor, pollSteps, run, initialState]
  | succ n ih =>
    rw [monitor_succ]
    cases hf : (monitor config start times sendErrs n).1.timeoutFlag
    · rw [tick_flag config _ _ _ hf, monitor_lastCall]
      rw [hf] at ih
      constructor
      · intro h
        exact ⟨n, by omega, h⟩
      · rintro ⟨j, hj, hlate⟩
        rcases Nat.lt_succ_iff_lt_or_eq.mp hj with hlt | heq
        · exact absurd (ih.mpr ⟨j, hlt, hlate⟩) (by simp)
        · rw [← heq]; exact hlate
    · rw [tick_idle config _ _ _ (by simp [hf])]
      obtain ⟨j, hj, hlate⟩ := ih.mp hf
      simp only [hf, true_iff]
      exact ⟨j, by omega, hlate⟩

/-- As soon as some tick comes later than the timeout after the start, there
is a first tick that sets the flag. -/
theorem monitor_fires (config : Config) (start : Time) (times : Nat → Time)
    (sendErrs : Nat → Option String)
    (h : ∃ j, times j - start > config.Timeout) :
    ∃ k, (monitor config start times sendErrs k).1.timeoutFlag = false ∧
      (monitor config start times sendErrs (k + 1)).1.timeoutFlag = true := by
  classical
  refine ⟨Nat.find h, ?_, ?_⟩
  · cases hf : (monitor config start times sendErrs (Nat.find h)).1.timeoutFlag
    · rfl
    · obtain ⟨j, hj, hlate⟩ := (monitor_flag_iff config start times sendErrs _).mp hf
      exact absurd hlate (Nat.find_min h hj)
  · exact (monitor_flag_iff config start times sendErrs _).mpr
      ⟨Nat.find h, by omega, Nat.find_spec h⟩

/-! ## Lemmas on the duration parser -/

theorem isDigit_iff (c : Char) : isDigit c = true ↔ 48 ≤ c.toNat ∧ c.toNat ≤ 57 := by
  simp [isDigit]

theorem isDigit_false_iff (c : Char) : isDigit c = false ↔ c.toNat < 48 ∨ 57 < c.toNat := by
  rw [← Bool.not_eq_true, isDigit_iff]
  omega

theorem unitMap_some (u : List Char) (m : Nat) (h : unitMap u = some m) :
    u ≠ [] ∧ (∀ c ∈ u, c ≠ '.' ∧ isDigit c = false) ∧ 0 < m ∧ m ≤ 3600000000000 := by
  unfold unitMap at h
  split_ifs at h with h1 h2 h3 h4 h5 h6 h7 h8 <;>
    (subst_vars; simp only [Option.some.injEq] at h; subst h; decide)

theorem foldl_digit_le (ds : List Char) (x : Nat) :
    x ≤ ds.foldl (fun x c => x * 10 + (c.toNat - '0'.toNat)) x := by
  induction ds generalizing x with
  | nil => simp
  | cons c rest ih =>
    simp only [List.foldl_cons]
    exact le_trans (by omega) (ih _)

/-- On a string of digits followed by something else `leadingInt` returns
the value of the digits, unless it exceeds `2 ^ 63`. -/
theorem leadingIntLoop_digits (ds rest : List Char) (x : Nat)
    (hds : ∀ c ∈ ds, isDigit c = true)
    (hrest : ∀ c ∈ rest.head?, isDigit c = false)
    (hval : ds.foldl (fun x c => x * 10 + (c.toNat - '0'.toNat)) x ≤ 2 ^ 63) :
    leadingIntLoop x (ds ++ rest)
      = some (ds.foldl (fun x c => x * 10 + (c.toNat - '0'.toNat)) x, rest) := by
  induction ds generalizing x with
  | nil =>
    cases rest with
    | nil => rfl
    | cons c r =>
      have hc := (isDigit_false_iff c).mp (hrest c (by simp))
      have h0 : '0'.toNat = 48 := rfl
      have h9 : '9'.toNat = 57 := rfl
      simp only [List.nil_append, leadingIntLoop, h0, h9, List.foldl_nil]
      rw [if_pos (by simp; omega)]
  | cons c ds ih =>
    have hc := (isDigit_iff c).mp (hds c (by simp))
    have h0 : '0'.toNat = 48 := rfl
    have h9 : '9'.toNat = 57 := rfl
    simp only [List.foldl_cons] at hval ⊢
    have hle := foldl_digit_le ds (x * 10 + (c.toNat - '0'.toNat))
    rw [h0] at hle hval
    have hpow : (2 : Nat) ^ 63 = 9223372036854775808 := by norm_num
    have hpow64 : (2 : Nat) ^ 64 = 18446744073709551616 := by norm_num
    rw [hpow] at hval
    have hmod : (x * 10 + c.toNat - 48) % 2 ^ 64 = x * 10 + (c.toNat - 48) := by
      rw [hpow64, Nat.mod_eq_of_lt (by omega)]
      omega
    simp only [List.cons_append, leadingIntLoop, h0, h9, hmod]
    rw [if_neg (by simp; omega), if_neg (by rw [hpow]; omega), if_neg (by rw [hpow]; omega)]
    exact ih _ (fun c hc => hds c (by simp [hc])) (by rw [h0, hpow]; exact hval)

theorem unitLength_append (u rest : List Char)
    (hu : ∀ c ∈ u, c ≠ '.' ∧ isDigit c = false)
    (hrest : ∀ c ∈ rest.head?, c = '.' ∨ isDigit c = true) :
    unitLength (u ++ rest) = u.length := by
  induction u with
  | nil =>
    cases rest with
    | nil => rfl
    | cons c r =>
      have hc := hrest c (by simp)
      simp only [List.nil_append, unitLength, List.length_nil]
      rw [if_pos (by rcases hc with h | h <;> simp [h])]
  | cons c u ih =>
    have hc := hu c (by simp)
    simp only [List.cons_append, unitLength, List.length_cons]
    rw [if_neg (by simp [hc.1, hc.2])]
    exact congrArg Nat.succ (ih (fun c hc => hu c (by simp [hc])))

theorem leadingInt_digits (ds rest : List Char)
    (hds : ∀ c ∈ ds, isDigit c = true)
    (hrest : ∀ c ∈ rest.head?, isDigit c = false)
    (hval : decimalValue ds ≤ 2 ^ 63) :
    leadingInt (ds ++ rest) = some (decimalValue ds, rest) :=
  leadingIntLoop_digits ds rest 0 hds hrest hval

theorem leadingFractionLoop_append (fd rest : List Char) (x digits : Nat) (overflow : Bool)
    (hfd : ∀ c ∈ fd, isDigit c = true)
    (hrest : ∀ c ∈ rest.head?, isDigit c = false) :
    leadingFractionLoop x digits overflow (fd ++ rest) =
      ((leadingFractionLoop x digits overflow fd).1,
        (leadingFractionLoop x digits overflow fd).2.1, rest) := by
  have h0 : '0'.toNat = 48 := rfl
  have h9 : '9'.toNat = 57 := rfl
  induction fd generalizing x digits overflow with
  | nil =>
    cases rest with
    | nil => rfl
    | cons c r =>
      have hc := (isDigit_false_iff c).mp (hrest c (by simp))
      simp only [List.nil_append, leadingFractionLoop, h0, h9]
      rw [if_pos (by simp; omega)]
  | cons c fd ih =>
    have hc := (isDigit_iff c).mp (hfd c (by simp))
    have hnd : ¬ ((decide (c.toNat < '0'.toNat) || decide (c.toNat > '9'.toNat)) = true) := by
      rw [h0, h9]; simp; omega
    have ih1 := fun x1 d1 o1 => ih x1 d1 o1 (fun y hy => hfd y (by simp [hy]))
    rw [List.cons_append]
    unfold leadingFractionLoop
    rw [if_neg hnd, if_neg hnd]
    split_ifs
    · exact ih1 _ _ _
    · exact ih1 _ _ _
    · exact ih1 _ _ _
    · exact ih1 _ _ _

/-- The fraction of a term is read from the text as it is read alone. -/
theorem consumeFraction_text (fr : Option (List Char)) (u0 : Char) (s : List Char)
    (hfr : ∀ c ∈ fr.getD [], isDigit c = true)
    (hu0 : u0 ≠ '.' ∧ isDigit u0 = false) :
    consumeFraction (fracText fr ++ u0 :: s) =
      (match fr with
        | some fd => ((leadingFraction fd).1, (leadingFraction fd).2.1, u0 :: s,
            !(fd.isEmpty))
        | none => (0, 0, u0 :: s, false)) := by
  cases fr with
  | none => simp [fracText, consumeFraction, hu0.1]
  | some fd =>
    have happ := leadingFractionLoop_append fd (u0 :: s) 0 0 false
      (by simpa using hfr) (by intro c hc; simp at hc; subst hc; exact hu0.2)
    simp only [fracText, List.cons_append, consumeFraction, if_true, leadingFraction, happ]
    congr 3
    cases fd with
    | nil => simp
    | cons a b =>
      simp only [List.length_append, List.length_cons, List.isEmpty_cons, Bool.not_false,
        bne_iff_ne, ne_eq]
      omega

theorem fracNanos_zero (unit digits : Nat) : fracNanos 0 unit digits = 0 := by
  have h : round53 0 false = (0, 0) := by decide
  simp [fracNanos, F64.toUint64, F64.mul, F64.ofNat, h]

/-- The unit step of the parser on a known unit followed by the next term. -/
theorem consumeUnit_unit (orig : List Char) (v f digits : Nat) (unit rest : List Char)
    (m : Nat) (hm : unitMap unit = some m)
    (hrest : ∀ c ∈ rest.head?, c = '.' ∨ isDigit c = true)
    (hval : v * m + fracNanos f m digits ≤ 2 ^ 63) :
    consumeUnit orig v f digits (unit ++ rest)
      = Except.ok (v * m + fracNanos f m digits, rest) := by
  obtain ⟨hune, huch, hmpos, hmle⟩ := unitMap_some unit m hm
  have hul : unitLength (unit ++ rest) = unit.length := unitLength_append unit rest huch hrest
  have hlen : unit.length ≠ 0 := by
    intro h; exact hune (List.length_eq_zero.mp h)
  have hpow : (2 : Nat) ^ 63 = 9223372036854775808 := by norm_num
  have hpow64 : (2 : Nat) ^ 64 = 18446744073709551616 := by norm_num
  have hdiv : ¬ v > 2 ^ 63 / m := by
    rw [not_lt, Nat.le_div_iff_mul_le hmpos]
    omega
  have hmod : v * m % 2 ^ 64 = v * m := by
    apply Nat.mod_eq_of_lt; omega
  have hmod2 : (v * m + fracNanos f m digits) % 2 ^ 64 = v * m + fracNanos f m digits := by
    apply Nat.mod_eq_of_lt; omega
  unfold consumeUnit
  rw [hul, if_neg hlen, List.take_left, List.drop_left]
  simp only [hm]
  rw [if_neg hdiv, hmod, hmod2]
  by_cases hf : f > 0
  · rw [if_pos hf, if_neg (by omega)]
  · have hf0 : f = 0 := by omega
    rw [if_neg hf, hf0, fracNanos_zero, Nat.add_zero]

theorem parseTerm_eq (orig s : List Char) (v : Nat) (s1 : List Char)
    (hhead : ∀ c ∈ s.head?, c = '.' ∨ isDigit c = true) (hne : s ≠ [])
    (hli : leadingInt s = some (v, s1)) :
    parseTerm orig s =
      if !(s.length != s1.length) && !(consumeFraction s1).2.2.2 then
        Except.error (ParseError.invalidDuration orig)
      else
        consumeUnit orig v (consumeFraction s1).1 (consumeFraction s1).2.1
          (consumeFraction s1).2.2.1 := by
  cases s with
  | nil => exact absurd rfl hne
  | cons c s0 =>
    have hc := hhead c (by simp)
    have hcd : (!(decide (c = '.') || isDigit c)) = false := by
      rcases hc with h | h <;> simp [h]
    simp only [parseTerm, hcd, hli]
    simp

theorem Term.wellFormed_iff (t : Term) :
    t.wellFormed = true ↔
      (∀ c ∈ t.whole, isDigit c = true) ∧ (∀ c ∈ t.frac.getD [], isDigit c = true) ∧
      (t.whole ≠ [] ∨ t.frac.getD [] ≠ []) ∧ ∃ m, unitMap t.unit = some m := by
  simp only [Term.wellFormed, Bool.and_eq_true, List.all_eq_true, Bool.or_eq_true,
    Bool.not_eq_true', List.isEmpty_eq_false, Option.isSome_iff_exists]
  constructor
  · rintro ⟨⟨⟨h1, h2⟩, h3⟩, h4⟩
    exact ⟨h1, h2, h3, h4⟩
  · rintro ⟨h1, h2, h3, h4⟩
    exact ⟨⟨⟨h1, h2⟩, h3⟩, h4⟩

/-- The text of a well-formed term starts with a digit or a dot and has at
least two characters. -/
theorem Term.text_head (t : Term) (hwf : t.wellFormed = true) :
    ∃ c tl, t.text = c :: tl ∧ (c = '.' ∨ isDigit c = true) ∧ tl ≠ [] := by
  obtain ⟨hwhole, hfrac, hdig, m, hm⟩ := (t.wellFormed_iff).mp hwf
  obtain ⟨hune, _, _, _⟩ := unitMap_some t.unit m hm
  obtain ⟨whole, frac, unit⟩ := t
  cases whole with
  | cons c ws =>
    exact ⟨c, ws ++ fracText frac ++ unit, by simp [Term.text],
      Or.inr (hwhole c (by simp)), by simp at hune; simp [hune]⟩
  | nil =>
    cases frac with
    | none => simp at hdig
    | some fd =>
      exact ⟨'.', fd ++ unit, by simp [Term.text, fracText], Or.inl rfl,
        by simp at hune; simp [hune]⟩

/-- One pass of the loop of the parser on a well-formed term: the
nanoseconds of the term, when they do not exceed `2 ^ 63`. -/
theorem parseTerm_wellFormed (orig : List Char) (t : Term) (rest : List Char)
    (hwf : t.wellFormed = true)
    (hrest : ∀ c ∈ rest.head?, c = '.' ∨ isDigit c = true)
    (hval : t.nanos ≤ 2 ^ 63) :
    parseTerm orig (t.text ++ rest) = Except.ok (t.nanos, rest) := by
  obtain ⟨hwhole, hfrac, hdig, m, hm⟩ := (t.wellFormed_iff).mp hwf
  obtain ⟨c, tl, htext, hc, _⟩ := t.text_head hwf
  obtain ⟨hune, huch, hmpos, hmle⟩ := unitMap_some t.unit m hm
  obtain ⟨whole, frac, unit⟩ := t
  simp only at hwhole hfrac hdig hm hune huch
  cases unit with
  | nil => exact absurd rfl hune
  | cons u0 us =>
    have hu0 := huch u0 (by simp)
    have hnanos : Term.nanos { whole := whole, frac := frac, unit := u0 :: us }
        = decimalValue whole * m
          + fracNanos (consumeFraction (fracText frac ++ u0 :: (us ++ rest))).1 m
              (consumeFraction (fracText frac ++ u0 :: (us ++ rest))).2.1 := by
      rw [consumeFraction_text frac u0 _ hfrac hu0]
      cases frac with
      | none => simp [Term.nanos, Term.unitNanos, hm, fracNanos_zero]
      | some fd => simp [Term.nanos, Term.unitNanos, hm]
    have hvle : decimalValue whole ≤ 2 ^ 63 := by
      rw [hnanos] at hval
      exact le_trans (Nat.le_mul_of_pos_right _ hmpos) (le_trans (Nat.le_add_right _ _) hval)
    have hs : Term.text { whole := whole, frac := frac, unit := u0 :: us } ++ rest
        = whole ++ (fracText frac ++ u0 :: (us ++ rest)) := by
      simp [Term.text]
    have hli : leadingInt (whole ++ (fracText frac ++ u0 :: (us ++ rest)))
        = some (decimalValue whole, fracText frac ++ u0 :: (us ++ rest)) := by
      apply leadingInt_digits whole _ hwhole _ hvle
      intro x hx
      cases frac with
      | none =>
        simp [fracText] at hx; subst hx; exact hu0.2
      | some fd =>
        simp [fracText] at hx; subst hx; decide
    have hhead : ∀ x ∈ (whole ++ (fracText frac ++ u0 :: (us ++ rest))).head?,
        x = '.' ∨ isDigit x = true := by
      intro x hx
      rw [← hs, htext] at hx
      simp only [List.cons_append, List.head?_cons, Option.mem_def, Option.some.injEq] at hx
      subst hx
      exact hc
    have hne : whole ++ (fracText frac ++ u0 :: (us ++ rest)) ≠ [] := by simp
    have hpp : (!((whole ++ (fracText frac ++ u0 :: (us ++ rest))).length
          != (fracText frac ++ u0 :: (us ++ rest)).length)
        && !(consumeFraction (fracText frac ++ u0 :: (us ++ rest))).2.2.2) = false := by
      cases whole with
      | cons a w =>
        have hl : ((a :: w ++ (fracText frac ++ u0 :: (us ++ rest))).length
            != (fracText frac ++ u0 :: (us ++ rest)).length) = true := by
          simp only [List.cons_append, List.length_cons, List.length_append, bne_iff_ne,
            ne_eq]
          omega
        rw [hl]
        rfl
      | nil =>
        rw [consumeFraction_text frac u0 _ hfrac hu0]
        cases frac with
        | none => simp at hdig
        | some fd =>
          have : fd ≠ [] := by simpa using hdig
          cases fd with
          | nil => exact absurd rfl this
          | cons a b => simp
    have hrest2 : (consumeFraction (fracText frac ++ u0 :: (us ++ rest))).2.2.1
        = (u0 :: us) ++ rest := by
      rw [consumeFraction_text frac u0 _ hfrac hu0]
      cases frac <;> simp
    have hval2 := hval
    rw [hnanos] at hval2
    rw [hs, parseTerm_eq orig _ _ _ hhead hne hli, hpp, hnanos]
    simp only [Bool.false_eq_true, if_false]
    rw [hrest2]
    exact consumeUnit_unit orig _ _ _ (u0 :: us) rest m hm hrest hval2

theorem durationText_head (ts : List Term) (hts : ∀ t ∈ ts, t.wellFormed = true) :
    ∀ c ∈ (durationText ts).head?, c = '.' ∨ isDigit c = true := by
  cases ts with
  | nil => simp [durationText]
  | cons t rest =>
    obtain ⟨c, tl, htext, hc, _⟩ := t.text_head (hts t (by simp))
    intro x hx
    simp only [durationText, htext, List.cons_append, List.head?_cons, Option.mem_def,
      Option.some.injEq] at hx
    subst hx
    exact hc

theorem durationText_length (ts : List Term) (hts : ∀ t ∈ ts, t.wellFormed = true) :
    ts.length ≤ (durationText ts).length := by
  induction ts with
  | nil => simp
  | cons t rest ih =>
    obtain ⟨c, tl, htext, _, _⟩ := t.text_head (hts t (by simp))
    have := ih (fun y hy => hts y (by simp [hy]))
    simp only [durationText, htext, List.cons_append, List.length_cons, List.length_append]
    omega

/-- The loop of the parser on a sequence of well-formed terms adds their
nanoseconds to the running total, as long as the total does not exceed
`2 ^ 63`. -/
theorem parseLoop_terms (orig : List Char) (ts : List Term) (fuel d : Nat)
    (hts : ∀ t ∈ ts, t.wellFormed = true)
    (hfuel : ts.length ≤ fuel)
    (hsum : d + durationNanos ts ≤ 2 ^ 63) :
    parseLoop orig fuel (durationText ts) d = Except.ok (d + durationNanos ts) := by
  induction ts generalizing fuel d with
  | nil => cases fuel <;> simp [durationText, durationNanos, parseLoop]
  | cons t rest ih =>
    have ht := hts t (by simp)
    have hrest : ∀ y ∈ rest, y.wellFormed = true := fun y hy => hts y (by simp [hy])
    obtain ⟨c, tl, htext, _, _⟩ := t.text_head ht
    obtain ⟨n, rfl⟩ : ∃ n, fuel = n + 1 := ⟨fuel - 1, by simp at hfuel; omega⟩
    simp only [durationNanos] at hsum ⊢
    have hterm := parseTerm_wellFormed orig t (durationText rest) ht
      (durationText_head rest hrest) (by omega)
    have hpow : (2 : Nat) ^ 63 = 9223372036854775808 := by norm_num
    have hpow64 : (2 : Nat) ^ 64 = 18446744073709551616 := by norm_num
    have hmod : (d + t.nanos) % 2 ^ 64 = d + t.nanos := by
      apply Nat.mod_eq_of_lt; omega
    simp only [durationText, htext, List.cons_append] at hterm ⊢
    simp only [parseLoop, hterm, hmod]
    rw [if_neg (by omega), ih n (d + t.nanos) hrest (by simp at hfuel; omega) (by omega)]
    rw [Nat.add_assoc]

theorem toInt64_of_lt (d : Nat) (h : d < 2 ^ 63) : toInt64 (d : Int) = d := by
  unfold toInt64
  have hpow : (2 : Nat) ^ 63 = 9223372036854775808 := by norm_num
  rw [hpow] at h
  norm_num
  omega

theorem specDuration_iff (ts : List Term) :
    specDuration ts = true ↔ ts ≠ [] ∧ ∀ t ∈ ts, t.wellFormed = true := by
  simp [specDuration]

/-- A duration string of the specification starts with a digit or a dot and
has at least two characters. -/
theorem specDuration_head (ts : List Term) (hspec : specDuration ts = true) :
    ∃ c tl, durationText ts = c :: tl ∧ (c = '.' ∨ isDigit c = true) ∧ tl ≠ [] := by
  obtain ⟨hne, hts⟩ := (specDuration_iff ts).mp hspec
  cases ts with
  | nil => exact absurd rfl hne
  | cons t rest =>
    obtain ⟨c, tl, htext, hc, htl⟩ := t.text_head (hts t (by simp))
    exact ⟨c, tl ++ durationText rest, by simp [durationText, htext], hc, by simp [htl]⟩

/-- On a duration string of the specification whose nanoseconds fit in a Go
duration, `time.ParseDuration` returns them. -/
theorem ParseDurationChars_spec (ts : List Term)
    (hspec : specDuration ts = true) (hsum : durationNanos ts ≤ 2 ^ 63 - 1) :
    ParseDurationChars (durationText ts) = Except.ok (durationNanos ts : Int) := by
  obtain ⟨hne, hts⟩ := (specDuration_iff ts).mp hspec
  have hlen := durationText_length ts hts
  obtain ⟨c, tl, hshape, hc, htl⟩ := specDuration_head ts hspec
  have hpow : (2 : Nat) ^ 63 = 9223372036854775808 := by norm_num
  have hloop := parseLoop_terms (durationText ts) ts (durationText ts).length 0 hts hlen
    (by omega)
  have hcm : c ≠ '-' := by
    intro h; subst h; rcases hc with h | h
    · exact absurd h (by decide)
    · exact absurd h (by decide)
  have hcp : c ≠ '+' := by
    intro h; subst h; rcases hc with h | h
    · exact absurd h (by decide)
    · exact absurd h (by decide)
  have hzero : c :: tl ≠ ['0'] := by
    intro h
    simp only [List.cons.injEq] at h
    exact htl h.2
  rw [hshape] at hloop ⊢
  simp only [ParseDurationChars, hcm, hcp, hzero, hloop, decide_False, Bool.or_self,
    Bool.false_eq_true, if_false]
  simp only [Nat.zero_add]
  rw [if_neg (by simp), if_neg (by omega), toInt64_of_lt _ (by omega)]

/-! ### When the fraction of a term is exact -/

theorem decimalValue_append (a b : List Char) :
    decimalValue (a ++ b)
      = b.foldl (fun x c => x * 10 + (c.toNat - '0'.toNat)) (decimalValue a) := by
  simp [decimalValue]

theorem foldl_digit_eq (b : List Char) (x : Nat) :
    b.foldl (fun x c => x * 10 + (c.toNat - '0'.toNat)) x
      = x * 10 ^ b.length + decimalValue b := by
  induction b generalizing x with
  | nil => simp [decimalValue]
  | cons c rest ih =>
    have h1 := ih (x * 10 + (c.toNat - '0'.toNat))
    have h2 := ih (0 * 10 + (c.toNat - '0'.toNat))
    simp only [decimalValue, List.foldl_cons, List.length_cons] at h1 h2 ⊢
    rw [h1, h2]
    ring

theorem decimalValue_lt (ds : List Char) (hds : ∀ c ∈ ds, isDigit c = true) :
    decimalValue ds < 10 ^ ds.length := by
  induction ds using List.reverseRecOn with
  | nil => simp [decimalValue]
  | append_singleton ds c ih =>
    have hc := (isDigit_iff c).mp (hds c (by simp))
    have h0 : '0'.toNat = 48 := rfl
    have := ih (fun y hy => hds y (by simp [hy]))
    rw [decimalValue_append]
    simp only [List.foldl_cons, List.foldl_nil, List.length_append, List.length_singleton,
      pow_succ, h0]
    omega

/-- The loop of `leadingFraction` keeps every digit as long as the value
stays within `2 ^ 63`. -/
theorem leadingFractionLoop_digits (fd : List Char) (x digits : Nat)
    (hfd : ∀ c ∈ fd, isDigit c = true)
    (hval : fd.foldl (fun x c => x * 10 + (c.toNat - '0'.toNat)) x ≤ 2 ^ 63) :
    leadingFractionLoop x digits false fd
      = (fd.foldl (fun x c => x * 10 + (c.toNat - '0'.toNat)) x, digits + fd.length, []) := by
  induction fd generalizing x digits with
  | nil => simp [leadingFractionLoop]
  | cons c fd ih =>
    have hc := (isDigit_iff c).mp (hfd c (by simp))
    have h0 : '0'.toNat = 48 := rfl
    have h9 : '9'.toNat = 57 := rfl
    simp only [List.foldl_cons] at hval ⊢
    have hle := foldl_digit_le fd (x * 10 + (c.toNat - '0'.toNat))
    rw [h0] at hle hval
    have hpow : (2 : Nat) ^ 63 = 9223372036854775808 := by norm_num
    have hpow64 : (2 : Nat) ^ 64 = 18446744073709551616 := by norm_num
    rw [hpow] at hval
    have hmod : (x * 10 + c.toNat - 48) % 2 ^ 64 = x * 10 + (c.toNat - 48) := by
      rw [hpow64, Nat.mod_eq_of_lt (by omega)]
      omega
    unfold leadingFractionLoop
    rw [if_neg (by rw [h0, h9]; simp; omega), if_neg (by simp),
      if_neg (by rw [hpow]; omega), h0, hmod, if_neg (by rw [hpow]; omega),
      ih _ _ (fun y hy => hfd y (by simp [hy])) (by rw [h0, hpow]; exact hval)]
    have hlen : digits + 1 + fd.length = digits + (c :: fd).length := by
      simp only [List.length_cons]; omega
    rw [hlen]
    rfl

theorem scale_exact (k : Nat) (hk : 10 ^ k < 2 ^ 53) :
    scale k = { mant := 10 ^ k, exp := 0 } := by
  induction k with
  | zero => decide
  | succ k ih =>
    have hlt : 10 ^ k < 10 ^ (k + 1) := Nat.pow_lt_pow_right (by norm_num) (by omega)
    have hten : F64.ofNat 10 = { mant := 10, exp := 0 } := by decide
    rw [scale, ih (lt_trans hlt hk), hten]
    simp only [F64.mul, round53]
    rw [if_pos (by rw [← pow_succ]; exact hk)]
    simp [pow_succ]

/-- The fraction `f / 10 ^ k` of a unit that is a multiple of `10 ^ k`
counts for exactly `f * (unit / 10 ^ k)` nanoseconds. -/
theorem fracNanos_exact (f unit k : Nat) (hunit : unit < 2 ^ 53) (hpos : 0 < unit)
    (hdvd : unit % 10 ^ k = 0) (hf : f < 10 ^ k) :
    fracNanos f unit k = f * (unit / 10 ^ k) := by
  have hpk : 0 < 10 ^ k := pow_pos (by norm_num) _
  have hle : 10 ^ k ≤ unit := Nat.le_of_dvd hpos (Nat.dvd_of_mod_eq_zero hdvd)
  have hquot : unit / 10 ^ k ≤ unit := Nat.div_le_self _ _
  have hprod : f * (unit / 10 ^ k) < 2 ^ 53 := by
    have h1 : f * (unit / 10 ^ k) ≤ 10 ^ k * (unit / 10 ^ k) :=
      Nat.mul_le_mul_right _ (le_of_lt hf)
    have h2 : 10 ^ k * (unit / 10 ^ k) ≤ unit := Nat.mul_div_le _ _
    omega
  have hr : ∀ n, n < 2 ^ 53 → round53 n false = (n, 0) := by
    intro n hn
    unfold round53
    rw [if_pos hn]
  simp only [fracNanos, F64.ofNat, hr f (by omega), hr unit hunit,
    scale_exact k (by omega), F64.div, hdvd, if_true, hr (unit / 10 ^ k) (by omega),
    F64.mul, hr _ hprod, F64.toUint64]
  simp only [sub_self, add_zero, Int.toNat_zero, Nat.cast_zero, le_refl, if_true, pow_zero,
    Nat.mul_one]
  apply Nat.mod_eq_of_lt
  have hpow53 : (2 : Nat) ^ 53 = 9007199254740992 := by norm_num
  have hpow64 : (2 : Nat) ^ 64 = 18446744073709551616 := by norm_num
  omega

/-- The nanoseconds of a well-formed term whose fraction is exact are its
number, read without the dot, times the unit, divided by the power of ten
of the fraction. -/
theorem Term.exact_nanos (t : Term) (hwf : t.wellFormed = true) (hex : t.exact = true) :
    t.nanos * 10 ^ (t.frac.getD []).length
      = decimalValue (t.whole ++ t.frac.getD []) * t.unitNanos := by
  obtain ⟨hwhole, hfrac, hdig, m, hm⟩ := (t.wellFormed_iff).mp hwf
  obtain ⟨_, _, hmpos, hmle⟩ := unitMap_some t.unit m hm
  obtain ⟨whole, frac, unit⟩ := t
  simp only [Term.exact, Term.unitNanos, hm, Option.getD_some, beq_iff_eq] at hex
  simp only at hwhole hfrac hm
  cases frac with
  | none => simp [Term.nanos, Term.unitNanos, hm]
  | some fd =>
    simp only [Option.getD_some] at hex hfrac ⊢
    have hpk : 0 < 10 ^ fd.length := pow_pos (by norm_num) _
    have hle : 10 ^ fd.length ≤ m := Nat.le_of_dvd hmpos (Nat.dvd_of_mod_eq_zero hex)
    have hflt := decimalValue_lt fd hfrac
    have hpow63 : (2 : Nat) ^ 63 = 9223372036854775808 := by norm_num
    have hpow53 : (2 : Nat) ^ 53 = 9007199254740992 := by norm_num
    have hlf : leadingFraction fd = (decimalValue fd, fd.length, []) := by
      have := leadingFractionLoop_digits fd 0 0 hfrac (by
        show decimalValue fd ≤ 2 ^ 63
        omega)
      simpa [leadingFraction, decimalValue] using this
    have hfn := fracNanos_exact (decimalValue fd) m fd.length (by omega) hmpos hex hflt
    simp only [Term.nanos, Term.unitNanos, hm, Option.getD_some, hlf, hfn]
    rw [decimalValue_append, foldl_digit_eq]
    obtain ⟨q, hq⟩ := Nat.dvd_of_mod_eq_zero hex
    rw [hq, Nat.mul_div_cancel_left _ hpk]
    ring

/-- What `leadingInt` consumes is a string of digits. -/
theorem leadingIntLoop_some (s : List Char) (x v : Nat) (s1 : List Char)
    (h : leadingIntLoop x s = some (v, s1)) :
    ∃ ds : List Char, (∀ c ∈ ds, isDigit c = true) ∧ s = ds ++ s1 := by
  induction s generalizing x with
  | nil =>
    simp only [leadingIntLoop, Option.some.injEq, Prod.mk.injEq] at h
    exact ⟨[], by simp, by simp [h.2]⟩
  | cons c rest ih =>
    have h0 : '0'.toNat = 48 := rfl
    have h9 : '9'.toNat = 57 := rfl
    unfold leadingIntLoop at h
    split_ifs at h with hnd hov1 hov2
    · simp only [Option.some.injEq, Prod.mk.injEq] at h
      exact ⟨[], by simp, by simp [h.2]⟩
    · obtain ⟨ds, hds, hrest⟩ := ih _ h
      refine ⟨c :: ds, ?_, by simp [hrest]⟩
      intro y hy
      rcases List.mem_cons.mp hy with rfl | hy
      · rw [isDigit_iff]
        simp only [h0, h9, Bool.or_eq_true, decide_eq_true_eq, not_or, not_lt] at hnd
        omega
      · exact hds y hy

/-- What `leadingFraction` consumes is a string of digits. -/
theorem leadingFractionLoop_rest (t : List Char) (x digits : Nat) (overflow : Bool) :
    ∃ fd : List Char, (∀ c ∈ fd, isDigit c = true) ∧
      t = fd ++ (leadingFractionLoop x digits overflow t).2.2 := by
  induction t generalizing x digits overflow with
  | nil => exact ⟨[], by simp, by simp [leadingFractionLoop]⟩
  | cons c rest ih =>
    have h0 : '0'.toNat = 48 := rfl
    have h9 : '9'.toNat = 57 := rfl
    by_cases hnd : (decide (c.toNat < '0'.toNat) || decide (c.toNat > '9'.toNat)) = true
    · refine ⟨[], by simp, ?_⟩
      unfold leadingFractionLoop
      rw [if_pos hnd]
      rfl
    · have hc : isDigit c = true := by
        rw [isDigit_iff]
        simp only [h0, h9, Bool.or_eq_true, decide_eq_true_eq, not_or, not_lt] at hnd
        omega
      have hcons : ∀ (x1 d1 : Nat) (o1 : Bool),
          ∃ fd : List Char, (∀ y ∈ fd, isDigit y = true) ∧
            c :: rest = fd ++ (leadingFractionLoop x1 d1 o1 rest).2.2 := by
        intro x1 d1 o1
        obtain ⟨fd, hfd, hrest⟩ := ih x1 d1 o1
        refine ⟨c :: fd, ?_, ?_⟩
        · intro y hy
          rcases List.mem_cons.mp hy with rfl | hy
          · exact hc
          · exact hfd y hy
        · rw [List.cons_append, ← hrest]
      unfold leadingFractionLoop
      rw [if_neg hnd]
      split_ifs
      · exact hcons _ _ _
      · exact hcons _ _ _
      · exact hcons _ _ _
      · exact hcons _ _ _

theorem consumeFraction_rest (s1 : List Char) :
    ∃ fr : Option (List Char), (∀ c ∈ fr.getD [], isDigit c = true) ∧
      s1 = fracText fr ++ (consumeFraction s1).2.2.1 ∧
      ((consumeFraction s1).2.2.2 = true → fr.getD [] ≠ []) := by
  cases s1 with
  | nil => exact ⟨none, by simp, by simp [fracText, consumeFraction], by simp [consumeFraction]⟩
  | cons c1 t =>
    by_cases hdot : c1 = '.'
    · subst hdot
      obtain ⟨fd, hfd, hrest⟩ := leadingFractionLoop_rest t 0 0 false
      refine ⟨some fd, by simpa using hfd, ?_, ?_⟩
      · simp only [consumeFraction, if_true, fracText, leadingFraction, List.cons_append]
        rw [← hrest]
      · simp only [consumeFraction, if_true, leadingFraction, Option.getD_some, bne_iff_ne,
          ne_eq]
        intro hlen hnil
        subst hnil
        apply hlen
        rw [List.nil_append] at hrest
        rw [← hrest]
    · exact ⟨none, by simp, by simp [fracText, consumeFraction, hdot],
        by simp [consumeFraction, hdot]⟩

theorem consumeUnit_ok (orig : List Char)
    (v f digits : Nat) (s2 : List Char) (r : Nat × List Char)
    (h : consumeUnit orig v f digits s2 = Except.ok r) :
    ∃ u : List Char, (unitMap u).isSome = true ∧ s2 = u ++ r.2 := by
  unfold consumeUnit at h
  by_cases hlen : unitLength s2 = 0
  · rw [if_pos hlen] at h
    exact absurd h (by simp)
  · rw [if_neg hlen] at h
    cases hu : unitMap (List.take (unitLength s2) s2) with
    | none => simp [hu] at h
    | some unit =>
      refine ⟨List.take (unitLength s2) s2, by simp [hu], ?_⟩
      simp only [hu] at h
      split_ifs at h <;>
        (simp only [Except.ok.injEq] at h; subst h; simp)

/-- What one pass of the loop of the parser consumes is a well-formed term. -/
theorem parseTerm_ok (orig s : List Char)
    (r : Nat × List Char) (h : parseTerm orig s = Except.ok r) :
    ∃ t : Term, t.wellFormed = true ∧ s = t.text ++ r.2 := by
  cases s with
  | nil => simp [parseTerm] at h
  | cons c s0 =>
    unfold parseTerm at h
    simp only at h
    by_cases hc : (!(decide (c = '.') || isDigit c)) = true
    · rw [if_pos hc] at h
      exact absurd h (by simp)
    · rw [if_neg hc] at h
      cases hli : leadingInt (c :: s0) with
      | none => simp [hli] at h
      | some p =>
        obtain ⟨v, s1⟩ := p
        simp only [hli] at h
        obtain ⟨ds, hds, hs⟩ := leadingIntLoop_some (c :: s0) 0 v s1 hli
        obtain ⟨fr, hfr, hs1, hpost⟩ := consumeFraction_rest s1
        by_cases hpp : (!((c :: s0).length != s1.length) && !(consumeFraction s1).2.2.2) = true
        · rw [if_pos hpp] at h
          exact absurd h (by simp)
        · rw [if_neg hpp] at h
          obtain ⟨u, hu, hs2⟩ := consumeUnit_ok _ _ _ _ _ _ h
          refine ⟨{ whole := ds, frac := fr, unit := u }, ?_, ?_⟩
          · have hdigits : (!ds.isEmpty || !(fr.getD []).isEmpty) = true := by
              by_cases hpost2 : (consumeFraction s1).2.2.2 = true
              · have := hpost hpost2
                cases hfd : fr.getD [] with
                | nil => exact absurd hfd this
                | cons a b => simp
              · cases ds with
                | nil =>
                  rw [List.nil_append] at hs
                  exfalso
                  apply hpp
                  rw [hs]
                  simp [hpost2]
                | cons a b => simp
            simp only [Term.wellFormed, Bool.and_eq_true, List.all_eq_true]
            exact ⟨⟨⟨hds, hfr⟩, hdigits⟩, hu⟩
          · simp only [Term.text]
            rw [hs, List.append_assoc, List.append_assoc, ← hs2, ← hs1]

/-- What the loop of the parser accepts is a sequence of well-formed terms. -/
theorem parseLoop_ok (orig : List Char)
    (fuel : Nat) (s : List Char) (d d1 : Nat)
    (h : parseLoop orig fuel s d = Except.ok d1) :
    ∃ ts : List Term, (∀ t ∈ ts, t.wellFormed = true) ∧ s = durationText ts := by
  induction fuel generalizing s d with
  | zero =>
    cases s with
    | nil => exact ⟨[], by simp, rfl⟩
    | cons c rest => simp [parseLoop] at h
  | succ n ih =>
    cases s with
    | nil => exact ⟨[], by simp, rfl⟩
    | cons c rest =>
      unfold parseLoop at h
      cases hterm : parseTerm orig (c :: rest) with
      | error e => simp [hterm] at h
      | ok r =>
        obtain ⟨v, s3⟩ := r
        simp only [hterm] at h
        obtain ⟨t, ht, hs⟩ := parseTerm_ok _ _ _ hterm
        split_ifs at h
        obtain ⟨ts, hts, hs3⟩ := ih _ _ h
        refine ⟨t :: ts, ?_, ?_⟩
        · intro y hy
          rcases List.mem_cons.mp hy with rfl | hy
          · exact ht
          · exact hts y hy
        · rw [hs, durationText]
          simp only
          rw [hs3]

/-- What `time.ParseDuration` accepts has the syntax it documents. -/
theorem ParseDurationChars_ok (orig : List Char)
    (d : Duration) (h : ParseDurationChars orig = Except.ok d) :
    SignedDuration orig := by
  have key : ∀ s : List Char, s ≠ [] →
      (s = ['0'] ∨ ∃ d1, parseLoop orig s.length s 0 = Except.ok d1) →
      ∀ sign : List Char, (sign = [] ∨ sign = ['-'] ∨ sign = ['+']) → orig = sign ++ s →
      SignedDuration orig := by
    intro s hne hs sign hsign horig
    rcases hs with h0 | ⟨d1, hloop⟩
    · exact ⟨sign, s, hsign, horig, Or.inl h0⟩
    · obtain ⟨ts, hts, hst⟩ := parseLoop_ok _ _ _ _ _ hloop
      refine ⟨sign, s, hsign, horig, Or.inr ⟨ts, ?_, hst⟩⟩
      rw [specDuration_iff]
      refine ⟨?_, hts⟩
      intro hnil
      rw [hnil] at hst
      exact hne hst
  have body : ∀ s : List Char,
      (if s = ['0'] then (Except.ok 0 : Except ParseError Duration)
        else if s = [] then Except.error (ParseError.invalidDuration orig)
        else
          match parseLoop orig s.length s 0 with
          | Except.error e => Except.error e
          | Except.ok d =>
            if (match orig with
                | c :: _ => decide (c = '-')
                | [] => false) = true then Except.ok (toInt64 (- toInt64 d))
            else if d > 2 ^ 63 - 1 then Except.error (ParseError.invalidDuration orig)
            else Except.ok (toInt64 d)) = Except.ok d →
      s ≠ [] ∧ (s = ['0'] ∨ ∃ d1, parseLoop orig s.length s 0 = Except.ok d1) := by
    intro s hs
    by_cases h0 : s = ['0']
    · exact ⟨by rw [h0]; simp, Or.inl h0⟩
    · rw [if_neg h0] at hs
      by_cases hnil : s = []
      · rw [if_pos hnil] at hs
        exact absurd hs (by simp)
      · rw [if_neg hnil] at hs
        cases hloop : parseLoop orig s.length s 0 with
        | error e => simp [hloop] at hs
        | ok d1 => exact ⟨hnil, Or.inr ⟨d1, rfl⟩⟩
  unfold ParseDurationChars at h
  cases orig with
  | nil =>
    have := body [] h
    exact absurd rfl this.1
  | cons c rest =>
    by_cases hsign : c = '-' ∨ c = '+'
    · have hs : (if (decide (c = '-') || decide (c = '+')) = true then rest else c :: rest)
          = rest := by
        rw [if_pos (by simpa using hsign)]
      simp only [hs] at h
      obtain ⟨hne, hres⟩ := body rest h
      refine key rest hne hres [c] ?_ rfl
      rcases hsign with rfl | rfl
      · exact Or.inr (Or.inl rfl)
      · exact Or.inr (Or.inr rfl)
    · have hs : (if (decide (c = '-') || decide (c = '+')) = true then rest else c :: rest)
          = c :: rest := by
        rw [if_neg (by simpa using hsign)]
      simp only [hs] at h
      obtain ⟨hne, hres⟩ := body (c :: rest) h
      exact key (c :: rest) hne hres [] (Or.inl rfl) rfl

theorem Term.text_length (t : Term) (hwf : t.wellFormed = true) : 0 < t.text.length := by
  simp only [Term.wellFormed, Bool.and_eq_true, Option.isSome_iff_exists] at hwf
  obtain ⟨_, m, hm⟩ := hwf
  obtain ⟨hune, _, _, _⟩ := unitMap_some t.unit m hm
  have : 0 < t.unit.length := List.length_pos.mpr hune
  simp only [Term.text, List.length_append]
  omega

/-- The fuel of the loop of the parser is never exhausted: every pass
consumes a character, so any fuel that covers the length of the string gives
the same result. -/
theorem parseLoop_fuel (orig : List Char)
    (fuel1 fuel2 : Nat) (s : List Char) (d : Nat)
    (h1 : s.length ≤ fuel1) (h2 : s.length ≤ fuel2) :
    parseLoop orig fuel1 s d = parseLoop orig fuel2 s d := by
  induction fuel1 generalizing fuel2 s d with
  | zero =>
    have hnil : s = [] := List.length_eq_zero.mp (Nat.le_zero.mp h1)
    subst hnil
    cases fuel2 <;> simp [parseLoop]
  | succ n1 ih =>
    cases s with
    | nil => cases fuel2 <;> simp [parseLoop]
    | cons c rest =>
      obtain ⟨n2, rfl⟩ : ∃ n2, fuel2 = n2 + 1 := ⟨fuel2 - 1, by simp at h2; omega⟩
      simp only [parseLoop]
      cases hterm : parseTerm orig (c :: rest) with
      | error e => rfl
      | ok r =>
        obtain ⟨v, s3⟩ := r
        obtain ⟨t, ht, hs⟩ := parseTerm_ok _ _ _ hterm
        have hlen := congrArg List.length hs
        have htl := t.text_length ht
        simp only [List.length_cons, List.length_append] at hlen h1 h2
        simp only
        split_ifs
        · rfl
        · exact ih n2 s3 _ (by omega) (by omega)

/-- The loader on a decoded file whose two durations parse. -/
theorem loadConfig_ok (env : Env) (data : String) (d : Decoded) (interval timeout : Duration)
    (hread : env.readFile = Except.ok data) (hdec : env.unmarshal data = Except.ok d)
    (hi : ParseDuration d.interval = Except.ok interval)
    (ht : ParseDuration d.timeout = Except.ok timeout) :
    loadConfig env = Except.ok
      { ListenAddr := d.listenAddr, Recipients := d.recipients, IntervalStr := d.interval,
        TimeoutStr := d.timeout, EmailFrom := d.emailFrom, EmailPass := d.emailPass,
        Interval := interval, Timeout := timeout } := by
  simp [loadConfig, hread, hdec, Config.parseDuration, Decoded.toConfig, hi, ht]

/-- The loader on a decoded file one of whose durations does not parse. -/
theorem loadConfig_duration_error (env : Env) (data : String) (d : Decoded)
    (hread : env.readFile = Except.ok data) (hdec : env.unmarshal data = Except.ok d)
    (h : (∃ e, ParseDuration d.interval = Except.error e) ∨
      (∃ e, ParseDuration d.timeout = Except.error e)) :
    ∃ err, loadConfig env = Except.error (LoadError.duration err) := by
  cases hi : ParseDuration d.interval with
  | error e =>
    exact ⟨e, by simp [loadConfig, hread, hdec, Config.parseDuration, Decoded.toConfig, hi]⟩
  | ok interval =>
    cases ht : ParseDuration d.timeout with
    | error e =>
      exact ⟨e, by
        simp [loadConfig, hread, hdec, Config.parseDuration, Decoded.toConfig, hi, ht]⟩
    | ok timeout =>
      rcases h with ⟨e, he⟩ | ⟨e, he⟩
      · rw [hi] at he; exact absurd he (by simp)
      · rw [ht] at he; exact absurd he (by simp)

theorem ParseDuration_error_of_not_signed (s : String) (h : ¬ SignedDuration s.toList) :
    ∃ e, ParseDuration s = Except.error e := by
  cases hp : ParseDuration s with
  | error e => exact ⟨e, rfl⟩
  | ok d => exact absurd (ParseDurationChars_ok s.toList d hp) h

/-- A signed string is not a duration string of the specification. -/
theorem minus_five_minutes_not_spec : ¬ SpecDuration "-5m".toList := by
  rintro ⟨ts, hspec, htext⟩
  obtain ⟨c, tl, hshape, hc, _⟩ := specDuration_head ts hspec
  have hs : "-5m".toList = ['-', '5', 'm'] := rfl
  rw [hs, hshape] at htext
  simp only [List.cons.injEq] at htext
  rw [← htext.1] at hc
  rcases hc with h | h
  · exact absurd h (by decide)
  · exact absurd h (by decide)

/-- The bare digit 0 is not a duration string of the specification: it has
no unit. -/
theorem zero_not_spec : ¬ SpecDuration "0".toList := by
  rintro ⟨ts, hspec, htext⟩
  obtain ⟨c, tl, hshape, _, htl⟩ := specDuration_head ts hspec
  have hs : "0".toList = ['0'] := rfl
  rw [hs, hshape] at htext
  simp only [List.cons.injEq] at htext
  exact htl htext.2.symm

/-- The string "5 minutes" has not the syntax of the parser: after the digit
comes a blank, which starts no unit. -/
theorem five_minutes_not_signed : ¬ SignedDuration "5 minutes".toList := by
  rintro ⟨sign, body, hsign, hsplit, hbody⟩
  have hs : "5 minutes".toList = ['5', ' ', 'm', 'i', 'n', 'u', 't', 'e', 's'] := rfl
  rw [hs] at hsplit
  rcases hsign with rfl | rfl | rfl
  · rw [List.nil_append] at hsplit
    subst hsplit
    rcases hbody with h0 | ⟨ts, hspec, htext⟩
    · simp at h0
    · obtain ⟨hne, hwf⟩ := (specDuration_iff ts).mp hspec
      cases ts with
      | nil => exact hne rfl
      | cons t rest =>
        obtain ⟨hwhole, _, hdigits, m, hm⟩ := (t.wellFormed_iff).mp (hwf t (by simp))
        obtain ⟨hune, huch, _, _⟩ := unitMap_some t.unit m hm
        obtain ⟨whole, frac, unit⟩ := t
        simp only at hwhole hdigits hm hune huch
        simp only [durationText, Term.text] at htext
        cases whole with
        | nil =>
          cases frac with
          | none => simp at hdigits
          | some fd => simp [fracText] at htext
        | cons a w =>
          cases w with
          | cons b w2 =>
            simp only [List.cons_append, List.cons.injEq] at htext
            have hb := hwhole b (by simp)
            rw [← htext.2.1] at hb
            exact absurd hb (by decide)
          | nil =>
            cases frac with
            | some fd => simp [fracText] at htext
            | none =>
              cases unit with
              | nil => exact hune rfl
              | cons u0 us =>
                simp only [fracText, List.append_nil, List.cons_append, List.nil_append,
                  List.cons.injEq] at htext
                have hu0 : unitMap (' ' :: us) = some m := by rw [htext.2.1]; exact hm
                simp [unitMap] at hu0
  · simp at hsplit
  · simp at hsplit

/-! ## The claims -/

/-- C1: for every N >= 1 and every sequence of N consecutive ticks, each at a
time with `now - lastCall > config.Timeout`, starting from
`timeoutFlag = false` and with no heartbeat in between, exactly one mail is
sent in total across the N ticks, it is the "API Timeout" mail, it is sent by
the first tick, and `timeoutFlag` is true after every one of the N ticks. -/
theorem timeout_notified_once (config : Config) (st : State)
    (ticks : List (Time × Option String)) (hN : 1 ≤ ticks.length)
    (hflag : st.timeoutFlag = false)
    (hlate : ∀ p ∈ ticks, p.1 - st.lastCall > config.Timeout) :
    mails (run config (ticks.map (fun p => Step.tick p.1 p.2)) st).2 = [timeoutMail config] ∧
    (∀ p ∈ ticks.head?, mails (tick config p.1 p.2 st).2 = [timeoutMail config]) ∧
    (∀ k, 1 ≤ k → k ≤ ticks.length →
      (run config ((ticks.take k).map (fun p => Step.tick p.1 p.2)) st).1.timeoutFlag
        = true) := by
  cases ticks with
  | nil => simp at hN
  | cons p rest =>
    have hp : p.1 - st.lastCall > config.Timeout := hlate p (by simp)
    have hfire := tick_fires config p.1 p.2 st hp hflag
    refine ⟨?_, ?_, ?_⟩
    · have hrest := run_ticks_timedOut config rest (tick config p.1 p.2 st).1
        (by rw [hfire.1])
      simp only [List.map_cons, run, step, hrest, mails_append, hfire.2]
      simp [mails]
    · intro q hq
      simp only [List.head?_cons, Option.mem_def, Option.some.injEq] at hq
      subst hq
      exact hfire.2
    · intro k hk1 _
      obtain ⟨j, rfl⟩ : ∃ j, k = j + 1 := ⟨k - 1, by omega⟩
      have hrest := run_ticks_timedOut config (rest.take j) (tick config p.1 p.2 st).1
        (by rw [hfire.1])
      simp only [List.take_succ_cons, List.map_cons, run, step, hrest]
      rw [hfire.1]

/-- Witness of C1: three ticks, 400, 500 and 600 seconds after the last call,
with a timeout of 300 seconds. -/
theorem timeout_notified_once_witness :
    mails (run
      { ListenAddr := ":8080", Recipients := ["ops@example.com"], IntervalStr := "1m",
        TimeoutStr := "5m", EmailFrom := "bot@example.com", EmailPass := "pw",
        Interval := 60000000000, Timeout := 300000000000 }
      ([((400000000000 : Int), (none : Option String)), (500000000000, some "dial"),
        (600000000000, none)].map (fun p => Step.tick p.1 p.2))
      (initialState 0)).2
      = [timeoutMail
          { ListenAddr := ":8080", Recipients := ["ops@example.com"], IntervalStr := "1m",
            TimeoutStr := "5m", EmailFrom := "bot@example.com", EmailPass := "pw",
            Interval := 60000000000, Timeout := 300000000000 }] :=
  (timeout_notified_once _ (initialState 0)
    [(400000000000, none), (500000000000, some "dial"), (600000000000, none)]
    (by decide) rfl (by decide)).1

/-- C2: in every state with `timeoutFlag = true` one heartbeat sends exactly
one mail, the "API Recovered" one, and leaves `timeoutFlag = false`; a second
heartbeat applied to the resulting state sends no mail and leaves
`timeoutFlag = false`. -/
theorem recovery_notified_once (config : Config) (st : State)
    (r1 r2 : Request) (now1 now2 : Time) (stamp1 stamp2 : String)
    (sendErr1 sendErr2 : Option String) (hflag : st.timeoutFlag = true) :
    mails (handleRequest config r1 now1 stamp1 sendErr1 st).2.1 = [recoveredMail config] ∧
    (handleRequest config r1 now1 stamp1 sendErr1 st).1.timeoutFlag = false ∧
    mails (handleRequest config r2 now2 stamp2 sendErr2
      (handleRequest config r1 now1 stamp1 sendErr1 st).1).2.1 = [] ∧
    (handleRequest config r2 now2 stamp2 sendErr2
      (handleRequest config r1 now1 stamp1 sendErr1 st).1).1.timeoutFlag = false := by
  refine ⟨?_, ?_, ?_, ?_⟩
  · rw [handleRequest_mails, hflag]; rfl
  · rw [handleRequest_state]
  · rw [handleRequest_mails, handleRequest_state]; rfl
  · rw [handleRequest_state]

/-- Witness of C2: two calls in a row in a timed-out process. -/
theorem recovery_notified_once_witness :
    mails (handleRequest
      { ListenAddr := ":8080", Recipients := ["ops@example.com"], IntervalStr := "1m",
        TimeoutStr := "5m", EmailFrom := "bot@example.com", EmailPass := "pw",
        Interval := 60000000000, Timeout := 300000000000 }
      { form := [] } 7 "2024-01-01 00:00:07" none
      { lastCall := 0, timeoutFlag := true }).2.1
      = [recoveredMail
          { ListenAddr := ":8080", Recipients := ["ops@example.com"], IntervalStr := "1m",
            TimeoutStr := "5m", EmailFrom := "bot@example.com", EmailPass := "pw",
            Interval := 60000000000, Timeout := 300000000000 }] :=
  (recovery_notified_once _ { lastCall := 0, timeoutFlag := true } { form := [] }
    { form := [("param1", "a")] } 7 8 "2024-01-01 00:00:07" "2024-01-01 00:00:08"
    none none rfl).1

/-- C9: a tick sends the "API Timeout" mail and sets `timeoutFlag` exactly
when `now - lastCall` is strictly greater than `config.Timeout` and
`timeoutFlag` is false; then the state is the old one with the flag set. In
every other case the tick has no output and leaves the state unchanged. A
tick never changes `lastCall` and never clears a set flag. -/
theorem tick_transition (config : Config) (now : Time) (sendErr : Option String)
    (st : State) :
    ((mails (tick config now sendErr st).2 = [timeoutMail config] ∧
        (tick config now sendErr st).1 = { st with timeoutFlag := true }) ↔
      (now - st.lastCall > config.Timeout ∧ st.timeoutFlag = false)) ∧
    (¬ (now - st.lastCall > config.Timeout ∧ st.timeoutFlag = false) →
      (tick config now sendErr st).2 = [] ∧ (tick config now sendErr st).1 = st) ∧
    (tick config now sendErr st).1.lastCall = st.lastCall ∧
    (st.timeoutFlag = true → (tick config now sendErr st).1.timeoutFlag = true) := by
  refine ⟨⟨?_, ?_⟩, ?_, tick_lastCall config now sendErr st, ?_⟩
  · intro h
    by_contra hc
    have := tick_idle config now sendErr st hc
    rw [this] at h
    simp [mails] at h
  · intro h
    exact ⟨(tick_fires config now sendErr st h.1 h.2).2,
      (tick_fires config now sendErr st h.1 h.2).1⟩
  · intro h
    rw [tick_idle config now sendErr st h]
    exact ⟨rfl, rfl⟩
  · intro h
    rw [tick_idle config now sendErr st (by simp [h])]
    exact h

/-- C10: the state after a tick and after a heartbeat does not depend on
the outcome of the mail. After a tick whose mail failed, later ticks with no
heartbeat in between send nothing; after a heartbeat whose mail failed, the
next heartbeat sends nothing. -/
theorem failed_mail_not_retried (config : Config) (st : State) (now : Time)
    (r : Request) (stamp : String) (err : String) (sendErr : Option String) :
    (tick config now (some err) st).1 = (tick config now none st).1 ∧
    (handleRequest config r now stamp (some err) st).1
      = (handleRequest config r now stamp none st).1 ∧
    (mails (tick config now (some err) st).2 ≠ [] →
      ∀ later : List (Time × Option String),
        mails (run config (later.map (fun p => Step.tick p.1 p.2))
          (tick config now (some err) st).1).2 = []) ∧
    (∀ (r2 : Request) (now2 : Time) (stamp2 : String),
      mails (handleRequest config r2 now2 stamp2 sendErr
        (handleRequest config r now stamp (some err) st).1).2.1 = []) := by
  refine ⟨?_, ?_, ?_, ?_⟩
  · unfold tick
    split
    · split <;> rfl
    · rfl
  · rw [handleRequest_state, handleRequest_state]
  · intro hsent later
    have hcond : now - st.lastCall > config.Timeout ∧ st.timeoutFlag = false := by
      by_contra hc
      rw [tick_idle config now (some err) st hc] at hsent
      exact hsent rfl
    have hfire := tick_fires config now (some err) st hcond.1 hcond.2
    rw [run_ticks_timedOut config later _ (by rw [hfire.1])]
    rfl
  · intro r2 now2 stamp2
    rw [handleRequest_mails, handleRequest_state]
    rfl

/-- C4: whatever the request, the state and the outcome of the mail, the
response of `handleRequest` has status 200, the header Content-Type equal to
"application/json" and as body the JSON literal 233 (as the encoder writes
it, followed by a newline); so any two calls get the same response, and an
absent parameter reads as the empty string. -/
theorem response_fixed (config config2 : Config) (r r2 : Request) (now now2 : Time)
    (stamp stamp2 : String) (sendErr sendErr2 : Option String) (st st2 : State) :
    (handleRequest config r now stamp sendErr st).2.2.status = 200 ∧
    (handleRequest config r now stamp sendErr st).2.2.header
      = [("Content-Type", "application/json")] ∧
    (handleRequest config r now stamp sendErr st).2.2.body = jsonEncodeInt 233 ∧
    jsonEncodeInt 233 = "233\n" ∧
    (handleRequest config r now stamp sendErr st).2.2
      = (handleRequest config2 r2 now2 stamp2 sendErr2 st2).2.2 ∧
    Request.FormValue { form := [] } "param1" = "" ∧
    Request.FormValue { form := [] } "param2" = "" := by
  have key : ∀ (c : Config) (q : Request) (t : Time) (s : String) (e : Option String)
      (x : State), (handleRequest c q t s e x).2.2 =
        { status := 200, header := [("Content-Type", "application/json")],
          body := jsonEncodeInt 233 } := by
    intro c q t s e x
    unfold handleRequest
    cases hf : x.timeoutFlag <;> simp [hf]
  refine ⟨?_, ?_, ?_, by decide, ?_, rfl, rfl⟩
  · rw [key]
  · rw [key]
  · rw [key]
  · rw [key, key]

/-- C3: in every trace of ticks and heartbeats (at arbitrary times) from the
initial state the mails alternate "API Timeout", "API Recovered",
"API Timeout", ... beginning with "API Timeout"; the flag is set after the
trace exactly when the last mail sent was "API Timeout"; after any trace, a
run of ticks sends at most one mail, and a heartbeat sends at most one mail,
which is then "API Recovered". -/
theorem notifications_alternate (config : Config) (start : Time) (steps : List Step) :
    (∀ i, i < (mails (run config steps (initialState start)).2).length →
      (mails (run config steps (initialState start)).2)[i]?
        = some (if i % 2 = 0 then timeoutMail config else recoveredMail config)) ∧
    ((run config steps (initialState start)).1.timeoutFlag = true ↔
      (mails (run config steps (initialState start)).2).getLast?
        = some (timeoutMail config)) ∧
    (∀ ticks : List (Time × Option String),
      (mails (run config (ticks.map (fun p => Step.tick p.1 p.2))
        (run config steps (initialState start)).1).2).length ≤ 1) ∧
    (∀ (r : Request) (now : Time) (stamp : String) (sendErr : Option String),
      mails (handleRequest config r now stamp sendErr
        (run config steps (initialState start)).1).2.1 = [] ∨
      mails (handleRequest config r now stamp sendErr
        (run config steps (initialState start)).1).2.1 = [recoveredMail config]) := by
  obtain ⟨hm, hf⟩ := run_mails config steps (initialState start)
  have hidx : ∀ i, i < (mails (run config steps (initialState start)).2).length →
      (mails (run config steps (initialState start)).2)[i]?
        = some (if i % 2 = 0 then timeoutMail config else recoveredMail config) := by
    intro i hi
    rw [hm, alternation_getElem? config _ _ i hi]
    by_cases hpar : i % 2 = 1
    · have : ¬ i % 2 = 0 := by omega
      simp [initialState, hpar]
    · have : i % 2 = 0 := by omega
      simp [initialState, this]
  refine ⟨hidx, ?_, ?_, ?_⟩
  · rw [hf, List.getLast?_eq_getElem?]
    generalize hn : (mails (run config steps (initialState start)).2).length = n at *
    cases n with
    | zero =>
      have hnil : mails (run config steps (initialState start)).2 = [] :=
        List.length_eq_zero.mp hn
      rw [hnil]
      simp [initialState]
    | succ k =>
      rw [Nat.add_sub_cancel, hidx k (by omega)]
      by_cases hpar : k % 2 = 0
      · have : (k + 1) % 2 = 1 := by omega
        simp [initialState, hpar, this]
      · have h1 : ¬ (k + 1) % 2 = 1 := by omega
        have hne := timeoutMail_ne_recoveredMail config
        simp only [initialState, hpar, h1, if_false, Option.some.injEq]
        constructor
        · intro h; simp at h
        · intro h; exact absurd h.symm hne
  · intro ticks
    exact run_ticks_length config ticks _
  · intro r now stamp sendErr
    rw [handleRequest_mails]
    cases (run config steps (initialState start)).1.timeoutFlag
    · left; rfl
    · right; rfl

/-- C5, amended: for every configuration whose timeout is not negative and
every state in which `lastCall` is older than the timeout, a heartbeat at
`now` sets `lastCall` to `now`; the check of `checkTimeout` at that instant
finds the elapsed time not above the threshold (strictly below it when the
timeout is positive), so the tick has no output and leaves the flag clear. -/
theorem heartbeat_resets_silence (config : Config) (st : State) (r : Request) (now : Time)
    (stamp : String) (sendErr sendErr2 : Option String)
    (htimeout : 0 ≤ config.Timeout)
    (hold : now - st.lastCall > config.Timeout) :
    (handleRequest config r now stamp sendErr st).1.lastCall = now ∧
    ¬ (now - (handleRequest config r now stamp sendErr st).1.lastCall > config.Timeout) ∧
    (0 < config.Timeout →
      now - (handleRequest config r now stamp sendErr st).1.lastCall < config.Timeout) ∧
    (tick config now sendErr2 (handleRequest config r now stamp sendErr st).1).2 = [] ∧
    (tick config now sendErr2 (handleRequest config r now stamp sendErr st).1).1.timeoutFlag
      = false := by
  have _ := hold
  rw [handleRequest_state]
  have hnot : ¬ (now - now > config.Timeout) := by
    simp only [sub_self]; exact not_lt.mpr htimeout
  refine ⟨rfl, hnot, ?_, ?_, ?_⟩
  · intro hpos; simp only [sub_self]; exact hpos
  · rw [tick_idle config now sendErr2 _ (fun h => hnot h.1)]
  · rw [tick_idle config now sendErr2 _ (fun h => hnot h.1)]

/-- Witness of C5: a timeout of five minutes, the last call ten minutes old. -/
theorem heartbeat_resets_silence_witness :
    (tick
      { ListenAddr := ":8080", Recipients := ["ops@example.com"], IntervalStr := "1m",
        TimeoutStr := "5m", EmailFrom := "bot@example.com", EmailPass := "pw",
        Interval := 60000000000, Timeout := 300000000000 }
      600000000000 none
      (handleRequest
        { ListenAddr := ":8080", Recipients := ["ops@example.com"], IntervalStr := "1m",
          TimeoutStr := "5m", EmailFrom := "bot@example.com", EmailPass := "pw",
          Interval := 60000000000, Timeout := 300000000000 }
        { form := [] } 600000000000 "2024-01-01 00:10:00" none
        { lastCall := 0, timeoutFlag := true }).1).2 = [] :=
  (heartbeat_resets_silence _ { lastCall := 0, timeoutFlag := true } { form := [] }
    600000000000 "2024-01-01 00:10:00" none none (by decide) (by decide)).2.2.2.1

/-- C5 as stated fails: "-5m" is a duration `time.ParseDuration` accepts, and
with that timeout the check made at the instant of the heartbeat finds the
elapsed time, zero, above the threshold: the tick sends the "API Timeout"
mail and sets the flag. -/
theorem heartbeat_resets_silence_counterexample :
    ParseDuration "-5m" = Except.ok (-300000000000) ∧
    (600000000000 : Int) - (State.mk 0 false).lastCall > -300000000000 ∧
    mails (tick
      { ListenAddr := ":8080", Recipients := ["ops@example.com"], IntervalStr := "1m",
        TimeoutStr := "-5m", EmailFrom := "bot@example.com", EmailPass := "pw",
        Interval := 60000000000, Timeout := -300000000000 }
      600000000000 none
      (handleRequest
        { ListenAddr := ":8080", Recipients := ["ops@example.com"], IntervalStr := "1m",
          TimeoutStr := "-5m", EmailFrom := "bot@example.com", EmailPass := "pw",
          Interval := 60000000000, Timeout := -300000000000 }
        { form := [] } 600000000000 "2024-01-01 00:10:00" none
        { lastCall := 0, timeoutFlag := false }).1).2
      = [timeoutMail
          { ListenAddr := ":8080", Recipients := ["ops@example.com"], IntervalStr := "1m",
            TimeoutStr := "-5m", EmailFrom := "bot@example.com", EmailPass := "pw",
            Interval := 60000000000, Timeout := -300000000000 }] ∧
    (tick
      { ListenAddr := ":8080", Recipients := ["ops@example.com"], IntervalStr := "1m",
        TimeoutStr := "-5m", EmailFrom := "bot@example.com", EmailPass := "pw",
        Interval := 60000000000, Timeout := -300000000000 }
      600000000000 none
      (handleRequest
        { ListenAddr := ":8080", Recipients := ["ops@example.com"], IntervalStr := "1m",
          TimeoutStr := "-5m", EmailFrom := "bot@example.com", EmailPass := "pw",
          Interval := 60000000000, Timeout := -300000000000 }
        { form := [] } 600000000000 "2024-01-01 00:10:00" none
        { lastCall := 0, timeoutFlag := false }).1).1.timeoutFlag = true := by
  refine ⟨rfl, by decide, ?_, ?_⟩
  · rw [handleRequest_state]
    exact (tick_fires _ _ _ _ (by decide) rfl).2
  · rw [handleRequest_state]
    rw [(tick_fires _ _ _ _ (by decide) rfl).1]

/-- C8, amended: when nobody calls the endpoint and the k-th tick happens
`k * interval` after the start (or later, a sleep lasting at least the
interval), the first tick that sets the flag happens strictly more than the
timeout after the start and, when the interval is not negative, at least one
interval after the start. -/
theorem first_timeout_tick (config : Config) (start : Time) (times : Nat → Time)
    (sendErrs : Nat → Option String) (k : Nat)
    (hsched : ∀ j, pollTime config start (j + 1) ≤ times j)
    (hbefore : (monitor config start times sendErrs k).1.timeoutFlag = false)
    (hafter : (monitor config start times sendErrs (k + 1)).1.timeoutFlag = true) :
    config.Timeout < times k - start ∧
    (0 ≤ config.Interval → config.Interval ≤ times k - start) := by
  rw [monitor_succ] at hafter
  have hlate := (tick_flag config _ _ _ hbefore).mp hafter
  rw [monitor_lastCall] at hlate
  refine ⟨hlate, ?_⟩
  intro hI
  have hk := hsched k
  simp only [pollTime] at hk
  push_cast at hk
  have hmul : (0 : Int) ≤ (k : Int) * config.Interval :=
    mul_nonneg (Int.ofNat_nonneg k) hI
  linarith

/-- Witness of C8: interval one minute, timeout five minutes, every tick a
millisecond late; the fifth tick, 300.005 seconds after the start, is the
first to set the flag. -/
theorem first_timeout_tick_witness :
    (300000000000 : Int) < (fun j : Nat => ((j : Int) + 1) * 60001000000) 4 - 0 :=
  (first_timeout_tick
    { ListenAddr := ":8080", Recipients := ["ops@example.com"], IntervalStr := "1m",
      TimeoutStr := "5m", EmailFrom := "bot@example.com", EmailPass := "pw",
      Interval := 60000000000, Timeout := 300000000000 }
    0 (fun j : Nat => ((j : Int) + 1) * 60001000000) (fun _ => none) 4
    (by intro j; simp only [pollTime]; push_cast; linarith [Int.ofNat_nonneg j])
    (by decide) (by decide)).1

/-- C8 as stated fails: with an interval of five minutes, a timeout of one
minute and the ticks exactly an interval apart, the first tick, five minutes
after the start, sets the flag, earlier than interval + timeout, six
minutes. -/
theorem first_timeout_tick_counterexample :
    (monitor
      { ListenAddr := ":8080", Recipients := ["ops@example.com"], IntervalStr := "5m",
        TimeoutStr := "1m", EmailFrom := "bot@example.com", EmailPass := "pw",
        Interval := 300000000000, Timeout := 60000000000 }
      0
      (fun j => pollTime
        { ListenAddr := ":8080", Recipients := ["ops@example.com"], IntervalStr := "5m",
          TimeoutStr := "1m", EmailFrom := "bot@example.com", EmailPass := "pw",
          Interval := 300000000000, Timeout := 60000000000 } 0 (j + 1))
      (fun _ => none) 0).1.timeoutFlag = false ∧
    (monitor
      { ListenAddr := ":8080", Recipients := ["ops@example.com"], IntervalStr := "5m",
        TimeoutStr := "1m", EmailFrom := "bot@example.com", EmailPass := "pw",
        Interval := 300000000000, Timeout := 60000000000 }
      0
      (fun j => pollTime
        { ListenAddr := ":8080", Recipients := ["ops@example.com"], IntervalStr := "5m",
          TimeoutStr := "1m", EmailFrom := "bot@example.com", EmailPass := "pw",
          Interval := 300000000000, Timeout := 60000000000 } 0 (j + 1))
      (fun _ => none) 1).1.timeoutFlag = true ∧
    pollTime
      { ListenAddr := ":8080", Recipients := ["ops@example.com"], IntervalStr := "5m",
        TimeoutStr := "1m", EmailFrom := "bot@example.com", EmailPass := "pw",
        Interval := 300000000000, Timeout := 60000000000 } 0 1 - 0
      < (300000000000 : Int) + 60000000000 := by
  decide

/-- C6, amended: when the file decodes as JSON and its "interval" and
"timeout" are duration strings of the specification (a non-empty sequence of
decimal number + unit pairs, the number with or without a fraction) that
denote at most `2 ^ 63 - 1` nanoseconds, `loadConfig` succeeds, sets
`Interval` and `Timeout` to the sums of the pairs in nanoseconds and leaves
the decoded values in the other fields. A pair counts for its integer part
times the unit plus the share of its fraction as computed in float64 and cut
to whole nanoseconds; that is the exact product of number and unit whenever
the unit is a multiple of ten to the number of fraction digits. For "1m" and
"5m" the sums are 60 and 300 seconds. -/
theorem loadConfig_durations (env : Env) (data : String) (d : Decoded) (ti tt : List Term)
    (hread : env.readFile = Except.ok data) (hdec : env.unmarshal data = Except.ok d)
    (hi : d.interval.toList = durationText ti) (hiw : specDuration ti = true)
    (hir : durationNanos ti ≤ 2 ^ 63 - 1)
    (ht : d.timeout.toList = durationText tt) (htw : specDuration tt = true)
    (htr : durationNanos tt ≤ 2 ^ 63 - 1) :
    loadConfig env = Except.ok
      { ListenAddr := d.listenAddr, Recipients := d.recipients, IntervalStr := d.interval,
        TimeoutStr := d.timeout, EmailFrom := d.emailFrom, EmailPass := d.emailPass,
        Interval := (durationNanos ti : Int), Timeout := (durationNanos tt : Int) } ∧
    (∀ t ∈ ti ++ tt, t.exact = true →
      t.nanos * 10 ^ (t.frac.getD []).length
        = decimalValue (t.whole ++ t.frac.getD []) * t.unitNanos) ∧
    (d.interval = "1m" → (durationNanos ti : Int) = 60 * 1000000000) ∧
    (d.timeout = "5m" → (durationNanos tt : Int) = 300 * 1000000000) := by
  have hpi : ParseDuration d.interval = Except.ok (durationNanos ti : Int) := by
    unfold ParseDuration
    rw [hi]
    exact ParseDurationChars_spec ti hiw hir
  have hpt : ParseDuration d.timeout = Except.ok (durationNanos tt : Int) := by
    unfold ParseDuration
    rw [ht]
    exact ParseDurationChars_spec tt htw htr
  refine ⟨loadConfig_ok env data d _ _ hread hdec hpi hpt, ?_, ?_, ?_⟩
  · intro t hmem hex
    have hwf : t.wellFormed = true := by
      rcases List.mem_append.mp hmem with h | h
      · exact ((specDuration_iff ti).mp hiw).2 t h
      · exact ((specDuration_iff tt).mp htw).2 t h
    exact t.exact_nanos hwf hex
  · intro h1
    rw [h1] at hpi
    have h60 : ParseDuration "1m" = Except.ok (60 * 1000000000) := rfl
    rw [h60] at hpi
    exact (Except.ok.inj hpi).symm
  · intro h5
    rw [h5] at hpt
    have h300 : ParseDuration "5m" = Except.ok (300 * 1000000000) := rfl
    rw [h300] at hpt
    exact (Except.ok.inj hpt).symm

/-- Witness of C6: interval "1.5h", timeout "5m". -/
theorem loadConfig_durations_witness :
    loadConfig
      { readFile := Except.ok "config"
        unmarshal := fun _ => Except.ok
          { listenAddr := ":8080", recipients := ["ops@example.com"], interval := "1.5h",
            timeout := "5m", emailFrom := "bot@example.com", emailPass := "pw" } }
      = Except.ok
        { ListenAddr := ":8080", Recipients := ["ops@example.com"], IntervalStr := "1.5h",
          TimeoutStr := "5m", EmailFrom := "bot@example.com", EmailPass := "pw",
          Interval := 5400000000000, Timeout := 300000000000 } :=
  (loadConfig_durations
    { readFile := Except.ok "config"
      unmarshal := fun _ => Except.ok
        { listenAddr := ":8080", recipients := ["ops@example.com"], interval := "1.5h",
          timeout := "5m", emailFrom := "bot@example.com", emailPass := "pw" } }
    "config"
    { listenAddr := ":8080", recipients := ["ops@example.com"], interval := "1.5h",
      timeout := "5m", emailFrom := "bot@example.com", emailPass := "pw" }
    [{ whole := ['1'], frac := some ['5'], unit := ['h'] }]
    [{ whole := ['5'], frac := none, unit := ['m'] }]
    rfl rfl rfl rfl (by decide) rfl rfl (by decide)).1

/-- C6 as stated fails. The string "3000000h" is a duration string of the
specification, three million hours, but its value does not fit in a Go
duration: `time.ParseDuration` rejects it and `loadConfig` returns the
error. And the string "0.01500000000000us" denotes 15 nanoseconds, but the
float64 arithmetic of the parser makes it 14. -/
theorem loadConfig_durations_counterexample :
    specDuration [{ whole := "3000000".toList, frac := none, unit := ['h'] }] = true ∧
    "3000000h".toList
      = durationText [{ whole := "3000000".toList, frac := none, unit := ['h'] }] ∧
    specDuration [{ whole := ['5'], frac := none, unit := ['m'] }] = true ∧
    "5m".toList = durationText [{ whole := ['5'], frac := none, unit := ['m'] }] ∧
    loadConfig
      { readFile := Except.ok "config"
        unmarshal := fun _ => Except.ok
          { listenAddr := ":8080", recipients := ["ops@example.com"],
            interval := "3000000h", timeout := "5m", emailFrom := "bot@example.com",
            emailPass := "pw" } }
      = Except.error (LoadError.duration (ParseError.invalidDuration "3000000h".toList)) ∧
    specDuration
      [{ whole := ['0'], frac := some "01500000000000".toList, unit := ['u', 's'] }] = true ∧
    "0.01500000000000us".toList = durationText
      [{ whole := ['0'], frac := some "01500000000000".toList, unit := ['u', 's'] }] ∧
    decimalValue "001500000000000".toList * 1000 = 15 * 10 ^ 14 ∧
    loadConfig
      { readFile := Except.ok "config"
        unmarshal := fun _ => Except.ok
          { listenAddr := ":8080", recipients := ["ops@example.com"],
            interval := "0.01500000000000us", timeout := "5m",
            emailFrom := "bot@example.com", emailPass := "pw" } }
      = Except.ok
        { ListenAddr := ":8080", Recipients := ["ops@example.com"],
          IntervalStr := "0.01500000000000us", TimeoutStr := "5m",
          EmailFrom := "bot@example.com", EmailPass := "pw",
          Interval := 14, Timeout := 300000000000 } :=
  ⟨rfl, rfl, rfl, rfl, rfl, rfl, rfl, by decide, rfl⟩

/-- C7, amended: `loadConfig` returns an error when the file cannot be read,
when its JSON cannot be decoded, and when the interval string or the timeout
string has not the syntax of `time.ParseDuration`, an optional sign followed
by the digit 0 or by a duration string of the specification, whichever of the
two strings it is ("5 minutes" has not that syntax, and is rejected for its
unit); and when `loadConfig` returns an error, `main` prints it and returns:
it neither starts the monitor nor registers the handler nor starts the
server. -/
theorem loadConfig_errors (env : Env) (serveErr : Option String) :
    (∀ err, env.readFile = Except.error err →
      loadConfig env = Except.error (LoadError.read err)) ∧
    (∀ data err, env.readFile = Except.ok data → env.unmarshal data = Except.error err →
      loadConfig env = Except.error (LoadError.decode err)) ∧
    (∀ data d, env.readFile = Except.ok data → env.unmarshal data = Except.ok d →
      (¬ SignedDuration d.interval.toList ∨ ¬ SignedDuration d.timeout.toList) →
      ∃ err, loadConfig env = Except.error (LoadError.duration err)) ∧
    ¬ SignedDuration "5 minutes".toList ∧
    (∀ data d, env.readFile = Except.ok data → env.unmarshal data = Except.ok d →
      (d.interval = "5 minutes" ∨ d.timeout = "5 minutes") →
      ∃ err, loadConfig env = Except.error (LoadError.duration err)) ∧
    (∀ err, loadConfig env = Except.error err →
      main env serveErr = [MainEvent.printLoadError err] ∧
      MainEvent.goCheckTimeout ∉ main env serveErr ∧
      (∀ pattern, MainEvent.handleFunc pattern ∉ main env serveErr) ∧
      (∀ addr, MainEvent.listenAndServe addr ∉ main env serveErr)) := by
  refine ⟨?_, ?_, ?_, five_minutes_not_signed, ?_, ?_⟩
  · intro err hread
    simp [loadConfig, hread]
  · intro data err hread hdec
    simp [loadConfig, hread, hdec]
  · intro data d hread hdec hbad
    apply loadConfig_duration_error env data d hread hdec
    rcases hbad with h | h
    · exact Or.inl (ParseDuration_error_of_not_signed _ h)
    · exact Or.inr (ParseDuration_error_of_not_signed _ h)
  · intro data d hread hdec hbad
    apply loadConfig_duration_error env data d hread hdec
    have h5 : ParseDuration "5 minutes"
        = Except.error (ParseError.unknownUnit " minutes".toList "5 minutes".toList) := rfl
    rcases hbad with h | h
    · exact Or.inl ⟨_, by rw [h]; exact h5⟩
    · exact Or.inr ⟨_, by rw [h]; exact h5⟩
  · intro err herr
    have hmain : main env serveErr = [MainEvent.printLoadError err] := by
      simp [main, herr]
    rw [hmain]
    simp

/-- Witness of C7: a file whose timeout is "5 minutes" does not load, and
`main` stops after printing the error. -/
theorem loadConfig_errors_witness :
    (∃ err, loadConfig
      { readFile := Except.ok "config"
        unmarshal := fun _ => Except.ok
          { listenAddr := ":8080", recipients := ["ops@example.com"], interval := "1m",
            timeout := "5 minutes", emailFrom := "bot@example.com", emailPass := "pw" } }
      = Except.error (LoadError.duration err)) ∧
    main
      { readFile := Except.ok "config"
        unmarshal := fun _ => Except.ok
          { listenAddr := ":8080", recipients := ["ops@example.com"], interval := "1m",
            timeout := "5 minutes", emailFrom := "bot@example.com", emailPass := "pw" } }
      none
      = [MainEvent.printLoadError (LoadError.duration
          (ParseError.unknownUnit " minutes".toList "5 minutes".toList))] :=
  ⟨(loadConfig_errors _ none).2.2.1 "config"
      { listenAddr := ":8080", recipients := ["ops@example.com"], interval := "1m",
        timeout := "5 minutes", emailFrom := "bot@example.com", emailPass := "pw" }
      rfl rfl (Or.inr five_minutes_not_signed),
    ((loadConfig_errors
      { readFile := Except.ok "config"
        unmarshal := fun _ => Except.ok
          { listenAddr := ":8080", recipients := ["ops@example.com"], interval := "1m",
            timeout := "5 minutes", emailFrom := "bot@example.com", emailPass := "pw" } }
      none).2.2.2.2.2
      (LoadError.duration (ParseError.unknownUnit " minutes".toList "5 minutes".toList))
      rfl).1⟩

/-- C7 as stated fails: "-5m" and "0" are not duration strings of the
specification, the one for its sign and the other for its missing unit, yet
a file with these two loads, with an interval of minus five minutes and a
timeout of zero, and `main` starts the monitor and the server. -/
theorem loadConfig_errors_counterexample :
    ¬ SpecDuration "-5m".toList ∧
    ¬ SpecDuration "0".toList ∧
    loadConfig
      { readFile := Except.ok "config"
        unmarshal := fun _ => Except.ok
          { listenAddr := ":8080", recipients := ["ops@example.com"], interval := "-5m",
            timeout := "0", emailFrom := "bot@example.com", emailPass := "pw" } }
      = Except.ok
        { ListenAddr := ":8080", Recipients := ["ops@example.com"], IntervalStr := "-5m",
          TimeoutStr := "0", EmailFrom := "bot@example.com", EmailPass := "pw",
          Interval := -300000000000, Timeout := 0 } ∧
    main
      { readFile := Except.ok "config"
        unmarshal := fun _ => Except.ok
          { listenAddr := ":8080", recipients := ["ops@example.com"], interval := "-5m",
            timeout := "0", emailFrom := "bot@example.com", emailPass := "pw" } }
      none
      = [MainEvent.goCheckTimeout, MainEvent.handleFunc "/call-api",
          MainEvent.listenAndServe ":8080"] :=
  ⟨minus_five_minutes_not_spec, zero_not_spec, rfl, rfl⟩

end GoDemo
